import Mathlib

/-!
Shallow embedding of the ring_buf library (ring_buf.c / ring_buf.h,
ring_buf_item.c, ring_buf_circ.c, ring_buf_yield.c).

Modelling conventions:
* `ring_buf_ptrdiff_t` (a signed `ptrdiff_t`) is modelled as `Int`.
* `ring_buf_size_t` (an unsigned `size_t`) is modelled as `Nat`; at the
  points where the C code converts a signed difference to `size_t`
  (`ring_buf_zone_head`, `ring_buf_zone_tail`, `ring_buf_zone_claim`,
  `ring_buf_used_space`, `ring_buf_free_space`), the model applies
  `Int.toNat`.  For the in-range states characterised by `ring_buf_inv`
  these differences are non-negative and below `PTRDIFF_MAX`, so the
  conversion agrees exactly with the C cast and no 2^w wrap occurs
  (exceeding `RING_BUF_SIZE_MAX` is a documented precondition violation
  in ring_buf.h, not runtime-checked behaviour).
* The byte region `buf->space` is a function `Nat → Nat` from physical
  offset to byte value; `memcpy` into a claimed span becomes a pointwise
  function update over the span's offset range.
* The do/while copy loops of `ring_buf_put` / `ring_buf_get` consume at
  least one byte per continued iteration, so they are written with a
  structural fuel argument initialised to the requested size, which is
  always sufficient; this keeps every definition kernel-computable.
-/

/-- errno value EINVAL (invalid argument), as used by ring_buf_put_ack /
ring_buf_get_ack via the negative return convention. -/
def EINVAL : Int := 22

/-- errno value EAGAIN (resource temporarily unavailable); also the
"continue" sentinel of the yield callbacks. -/
def EAGAIN : Int := 11

/-- errno value EMSGSIZE (message too long). -/
def EMSGSIZE : Int := 90

/-- struct ring_buf_zone: base, head and tail indices
(signed `ring_buf_ptrdiff_t` counters, conceptually unbounded). -/
structure RingBufZone where
  base : Int
  head : Int
  tail : Int
deriving Repr, DecidableEq

/-- struct ring_buf: byte space, capacity in bytes, and the put and get
zones. -/
structure RingBuf where
  space : Nat → Nat
  size : Nat
  put : RingBufZone
  get : RingBufZone

/-- ring_buf_clamp: clamp a value to a limit (the C version mutates the
value through a pointer; the model returns the clamped value). -/
def ring_buf_clamp (clamp limit : Nat) : Nat :=
  if clamp > limit then limit else clamp

/-- ring_buf_zone_head: head index of a zone relative to its base,
converted to `ring_buf_size_t`. -/
def ring_buf_zone_head (zone : RingBufZone) : Nat :=
  (zone.head - zone.base).toNat

/-- ring_buf_zone_tail: tail index of a zone relative to its base,
converted to `ring_buf_size_t`. -/
def ring_buf_zone_tail (zone : RingBufZone) : Nat :=
  (zone.tail - zone.base).toNat

/-- ring_buf_zone_claim: outstanding claim size of a zone
(head minus tail), converted to `ring_buf_size_t`. -/
def ring_buf_zone_claim (zone : RingBufZone) : Nat :=
  (zone.head - zone.tail).toNat

/-- ring_buf_zone_reset: reinitialise a zone to a common base index. -/
def ring_buf_zone_reset (base : Int) : RingBufZone :=
  ⟨base, base, base⟩

/-- ring_buf_reset: reset both zones of a buffer to the given base. -/
def ring_buf_reset (buf : RingBuf) (base : Int) : RingBuf :=
  { buf with put := ring_buf_zone_reset base, get := ring_buf_zone_reset base }

/-- ring_buf_used_space: bytes committed by put and not yet read
(`put.tail - get.head`, returned as `ring_buf_size_t`). -/
def ring_buf_used_space (buf : RingBuf) : Int :=
  buf.put.tail - buf.get.head

/-- ring_buf_is_empty: the buffer is empty when the used space is zero. -/
def ring_buf_is_empty (buf : RingBuf) : Bool :=
  ring_buf_used_space buf == 0

/-- ring_buf_free_space: bytes available for writing
(`size - (put.head - get.tail)`, returned as `ring_buf_size_t`). -/
def ring_buf_free_space (buf : RingBuf) : Int :=
  (buf.size : Int) - (buf.put.head - buf.get.tail)

/-- ring_buf_is_full: the buffer is full when the free space is zero. -/
def ring_buf_is_full (buf : RingBuf) : Bool :=
  ring_buf_free_space buf == 0

/-- ring_buf_put_claim: claim contiguous space for putting.  Rebases a
local copy of the put base when the head offset has passed the physical
end, clamps the request first to the remaining contiguous space and then
to the free space, advances the put head, and returns (new buffer,
offset of the claimed space within the data region, granted bytes). -/
def ring_buf_put_claim (buf : RingBuf) (size : Nat) : RingBuf × Nat × Nat :=
  let head := ring_buf_zone_head buf.put
  let p : Int × Nat :=
    if head ≥ buf.size then (buf.put.base + (buf.size : Int), head - buf.size)
    else (buf.put.base, head)
  let size := ring_buf_clamp size (buf.size - p.2)
  let size := ring_buf_clamp size (ring_buf_free_space buf).toNat
  ({ buf with put := { buf.put with head := buf.put.head + (size : Int) } },
    (buf.put.head - p.1).toNat, size)

/-- ring_buf_put_ack: acknowledge previously claimed put space.  Fails
with -EINVAL when the size exceeds the outstanding claim; otherwise
advances the tail, collapses the head onto it, and rebases when the new
tail is a whole buffer length past the base. -/
def ring_buf_put_ack (buf : RingBuf) (size : Nat) : RingBuf × Int :=
  let claim := ring_buf_zone_claim buf.put
  if size > claim then (buf, -EINVAL)
  else
    let tail := buf.put.tail + (size : Int)
    let base :=
      if (tail - buf.put.base).toNat ≥ buf.size then buf.put.base + (buf.size : Int)
      else buf.put.base
    ({ buf with put := ⟨base, tail, tail⟩ }, 0)

/-- ring_buf_get_claim: claim contiguous space for getting; symmetric to
ring_buf_put_claim with the used space as the second clamp. -/
def ring_buf_get_claim (buf : RingBuf) (size : Nat) : RingBuf × Nat × Nat :=
  let head := ring_buf_zone_head buf.get
  let p : Int × Nat :=
    if head ≥ buf.size then (buf.get.base + (buf.size : Int), head - buf.size)
    else (buf.get.base, head)
  let size := ring_buf_clamp size (buf.size - p.2)
  let size := ring_buf_clamp size (ring_buf_used_space buf).toNat
  ({ buf with get := { buf.get with head := buf.get.head + (size : Int) } },
    (buf.get.head - p.1).toNat, size)

/-- ring_buf_get_ack: acknowledge previously claimed get space;
symmetric to ring_buf_put_ack. -/
def ring_buf_get_ack (buf : RingBuf) (size : Nat) : RingBuf × Int :=
  let claim := ring_buf_zone_claim buf.get
  if size > claim then (buf, -EINVAL)
  else
    let tail := buf.get.tail + (size : Int)
    let base :=
      if (tail - buf.get.base).toNat ≥ buf.size then buf.get.base + (buf.size : Int)
      else buf.get.base
    ({ buf with get := ⟨base, tail, tail⟩ }, 0)

/-- memcpy of a byte list into the buffer space at a physical offset. -/
def writeBytes (buf : RingBuf) (off : Nat) (bytes : List Nat) : RingBuf :=
  { buf with space := fun i =>
      if off ≤ i ∧ i < off + bytes.length then bytes.getD (i - off) 0 else buf.space i }

/-- Loop body of ring_buf_put: claim, copy, and continue while the claim
is non-zero and bytes remain.  The fuel argument only bounds the number
of iterations; `ring_buf_put` supplies `data.length`, which is always
enough because every continued iteration consumes at least one byte. -/
def ring_buf_put_loop : RingBuf → List Nat → Nat → RingBuf × Nat
  | buf, data, 0 =>
    let r := ring_buf_put_claim buf data.length
    (writeBytes r.1 r.2.1 (data.take r.2.2), r.2.2)
  | buf, data, fuel + 1 =>
    let r := ring_buf_put_claim buf data.length
    let buf2 := writeBytes r.1 r.2.1 (data.take r.2.2)
    if r.2.2 = 0 ∨ data.length - r.2.2 = 0 then (buf2, r.2.2)
    else
      let r2 := ring_buf_put_loop buf2 (data.drop r.2.2) fuel
      (r2.1, r.2.2 + r2.2)

/-- ring_buf_put: put possibly discontiguous bytes, looping claim+copy
until the request is satisfied or a claim returns zero.  Returns the
total number of bytes moved (the amount to acknowledge); it does not
acknowledge. -/
def ring_buf_put (buf : RingBuf) (data : List Nat) : RingBuf × Nat :=
  ring_buf_put_loop buf data data.length

/-- Loop body of ring_buf_get, in the same fuelled style as
ring_buf_put_loop.  Returns the bytes read in order; a NULL destination
in C merely skips the copy, so its state effect is this function with
the returned list discarded. -/
def ring_buf_get_loop : RingBuf → Nat → Nat → RingBuf × List Nat
  | buf, size, 0 =>
    let r := ring_buf_get_claim buf size
    (r.1, (List.range r.2.2).map fun i => buf.space (r.2.1 + i))
  | buf, size, fuel + 1 =>
    let r := ring_buf_get_claim buf size
    let bytes := (List.range r.2.2).map fun i => buf.space (r.2.1 + i)
    if r.2.2 = 0 ∨ size - r.2.2 = 0 then (r.1, bytes)
    else
      let r2 := ring_buf_get_loop r.1 (size - r.2.2) fuel
      (r2.1, bytes ++ r2.2)

/-- ring_buf_get: get possibly discontiguous bytes, looping claim+copy
until satisfied or exhausted.  Returns the bytes moved; does not
acknowledge. -/
def ring_buf_get (buf : RingBuf) (size : Nat) : RingBuf × List Nat :=
  ring_buf_get_loop buf size size

/-- ring_buf_put_all: all-or-none put.  Attempts ring_buf_put; if fewer
than the requested bytes moved, acknowledges zero and fails with
-EMSGSIZE, otherwise acknowledges the full amount and succeeds. -/
def ring_buf_put_all (buf : RingBuf) (data : List Nat) : RingBuf × Int :=
  let r := ring_buf_put buf data
  let err : Int := if r.2 < data.length then -EMSGSIZE else 0
  let ack := if err < 0 then 0 else r.2
  ((ring_buf_put_ack r.1 ack).1, err)

/-- ring_buf_get_all: all-or-none get; fails with -EAGAIN and
acknowledges zero when fewer than the requested bytes are available.
Also returns the bytes the attempted get copied out. -/
def ring_buf_get_all (buf : RingBuf) (size : Nat) : RingBuf × Int × List Nat :=
  let r := ring_buf_get buf size
  let err : Int := if r.2.length < size then -EAGAIN else 0
  let ack := if err < 0 then 0 else r.2.length
  ((ring_buf_get_ack r.1 ack).1, err, r.2)

/-- The two bytes of a `ring_buf_item_length_t` (uint16_t) as stored in
memory by memcpy, in native little-endian order: low byte first. -/
def enc16 (n : Nat) : List Nat := [n % 256, n / 256]

/-- Reassemble a `ring_buf_item_length_t` from its two stored bytes. -/
def dec16 (lo hi : Nat) : Nat := lo + 256 * hi

/-- ring_buf_item_put: fails with -EMSGSIZE when the length field plus
the payload exceeds the free space; otherwise puts the 16-bit length
then the payload and acknowledges both. -/
def ring_buf_item_put (buf : RingBuf) (data : List Nat) (size : Nat) : RingBuf × Int :=
  if 2 + size > (ring_buf_free_space buf).toNat then (buf, -EMSGSIZE)
  else
    let r1 := ring_buf_put buf (enc16 size)
    let r2 := ring_buf_put r1.1 (data.take size)
    ring_buf_put_ack r2.1 (r1.2 + r2.2)

/-- ring_buf_item_get: fails with -EAGAIN when the buffer is empty;
otherwise reads the 16-bit length, then that many payload bytes, and
acknowledges both reads.  Returns (buffer, ack result, decoded length,
payload bytes).  When fewer than two length bytes are available (a
framing violation the source leaves undefined) the missing bytes default
to zero. -/
def ring_buf_item_get (buf : RingBuf) : RingBuf × Int × Nat × List Nat :=
  if ring_buf_is_empty buf then (buf, -EAGAIN, 0, [])
  else
    let r1 := ring_buf_get buf 2
    let len := dec16 (r1.2.getD 0 0) (r1.2.getD 1 0)
    let r2 := ring_buf_get r1.1 len
    let r3 := ring_buf_get_ack r2.1 (r1.2.length + r2.2.length)
    (r3.1, r3.2, len, r2.2)

/-- ring_buf_put_circ: when the buffer is full, first discard the
incoming size from the oldest end (a NULL-destination get plus
acknowledge); then fail with -EMSGSIZE if the size still exceeds the
free space, else put and acknowledge the full amount. -/
def ring_buf_put_circ (buf : RingBuf) (data : List Nat) : RingBuf × Int :=
  let buf :=
    if ring_buf_is_full buf then
      let r := ring_buf_get buf data.length
      (ring_buf_get_ack r.1 r.2.length).1
    else buf
  if data.length > (ring_buf_free_space buf).toNat then (buf, -EMSGSIZE)
  else
    let r := ring_buf_put buf data
    ring_buf_put_ack r.1 r.2

/-- ring_buf_get_claim_yield: repeatedly get-claim `size` bytes and
invoke the callback with the claimed span and a running index while a
full span is granted and the callback returns the -EAGAIN continue
sentinel; a different callback value terminates the iteration and is
returned, and exhaustion returns the index (the span count).  The C
while loop has no intrinsic bound, so the model is step-indexed by a
fuel argument and returns `none` when the fuel is exhausted before the
loop finishes; the callback receives the span's bytes and the C `int`
index. -/
def ring_buf_get_claim_yield (size : Nat) (yield : List Nat → Int → Int) :
    RingBuf → Int → Nat → Option (RingBuf × Int)
  | _, _, 0 => none
  | buf, index, fuel + 1 =>
    let r := ring_buf_get_claim buf size
    if r.2.2 = size then
      let span := (List.range size).map fun i => buf.space (r.2.1 + i)
      let yielded := yield span index
      if yielded = -EAGAIN then ring_buf_get_claim_yield size yield r.1 (index + 1) fuel
      else some (r.1, yielded)
    else some (r.1, index)

/-!  Reachable-state invariant.  Every field combination produced by the
API from a reset buffer satisfies this predicate; it is exactly what
makes the `size_t` casts in the C code loss-free. -/

/-- Well-formedness invariant of a ring buffer state: the capacity is
positive; in each zone base ≤ tail ≤ head, the tail is less than one
buffer length past the base and the head less than two; the used and
free space are non-negative; and the two bases differ by a whole number
of buffer lengths. -/
def ring_buf_inv (buf : RingBuf) : Prop :=
  0 < buf.size ∧
  buf.put.base ≤ buf.put.tail ∧ buf.put.tail ≤ buf.put.head ∧
  buf.get.base ≤ buf.get.tail ∧ buf.get.tail ≤ buf.get.head ∧
  buf.put.tail - buf.put.base < (buf.size : Int) ∧
  buf.get.tail - buf.get.base < (buf.size : Int) ∧
  buf.put.head - buf.put.base < 2 * (buf.size : Int) ∧
  buf.get.head - buf.get.base < 2 * (buf.size : Int) ∧
  buf.get.head ≤ buf.put.tail ∧
  buf.put.head - buf.get.tail ≤ (buf.size : Int) ∧
  (buf.put.base - buf.get.base) % (buf.size : Int) = 0

instance (buf : RingBuf) : Decidable (ring_buf_inv buf) := by
  unfold ring_buf_inv; infer_instance

/-- No claim is outstanding on either zone: the state is at a quiescent
point of the claim/acknowledge protocol. -/
def ring_buf_quiet (buf : RingBuf) : Prop :=
  buf.put.head = buf.put.tail ∧ buf.get.head = buf.get.tail

instance (buf : RingBuf) : Decidable (ring_buf_quiet buf) := by
  unfold ring_buf_quiet; infer_instance

/-!  Helper lemmas: characterisations of the primitive operations. -/

/-- The physical offset the claim functions compute: the zone head
relative to the base, rebased by one buffer length when it has passed
the physical end. -/
def wrapOff (S h : Nat) : Nat := if S ≤ h then h - S else h

theorem ring_buf_clamp_eq_min (a b : Nat) : ring_buf_clamp a b = min a b := by
  unfold ring_buf_clamp; split <;> omega

theorem wrapOff_add_mod (S h i : Nat) (hS : 0 < S) (hi : wrapOff S h + i < S) :
    (h + i) % S = wrapOff S h + i := by
  by_cases hc : S ≤ h
  · simp only [wrapOff, if_pos hc] at hi ⊢
    have h1 : S ≤ h + i := by omega
    rw [Nat.mod_eq_sub_mod h1, Nat.mod_eq_of_lt (by omega)]
    omega
  · simp only [wrapOff, if_neg hc] at hi ⊢
    exact Nat.mod_eq_of_lt (by omega)

theorem add_mod_ne (S h : Nat) {i j : Nat} (hi : i < S) (hj : j < S)
    (hne : i ≠ j) : (h + i) % S ≠ (h + j) % S := by
  intro heq
  have heq' : Nat.ModEq S (h + i) (h + j) := heq
  have hm : Nat.ModEq S i j :=
    Nat.ModEq.add_left_cancel (Nat.ModEq.refl h) heq'
  have hij : i % S = j % S := hm
  rw [Nat.mod_eq_of_lt hi, Nat.mod_eq_of_lt hj] at hij
  exact hne hij

theorem list_getD_take (l : List Nat) (n i d : Nat) (h : i < n) :
    (l.take n).getD i d = l.getD i d := by
  induction l generalizing n i with
  | nil => simp
  | cons a t ih =>
    match n, h with
    | n + 1, h =>
      match i with
      | 0 => simp
      | i + 1 => simpa using ih n i (by omega)

theorem list_getD_drop (l : List Nat) (n i d : Nat) :
    (l.drop n).getD i d = l.getD (n + i) d := by
  induction n generalizing l with
  | zero => simp
  | succ n ih =>
    match l with
    | [] => simp
    | a :: t => simpa [Nat.succ_add] using ih t

theorem ring_buf_put_claim_eq (buf : RingBuf) (req h : Nat)
    (hh : buf.put.head = buf.put.base + (h : Int)) :
    ring_buf_put_claim buf req =
      ({ buf with put := { buf.put with head := buf.put.head +
          ((min (min req (buf.size - wrapOff buf.size h))
              (ring_buf_free_space buf).toNat : Nat) : Int) } },
        wrapOff buf.size h,
        min (min req (buf.size - wrapOff buf.size h))
          (ring_buf_free_space buf).toNat) := by
  unfold ring_buf_put_claim ring_buf_zone_head wrapOff
  rw [hh]
  simp only [add_sub_cancel_left, Int.toNat_natCast, ge_iff_le,
    ring_buf_clamp_eq_min]
  split
  · simp only [add_sub_add_left_eq_sub, Int.toNat_sub]
  · simp only [add_sub_cancel_left, Int.toNat_natCast]

theorem ring_buf_get_claim_eq (buf : RingBuf) (req g : Nat)
    (hg : buf.get.head = buf.get.base + (g : Int)) :
    ring_buf_get_claim buf req =
      ({ buf with get := { buf.get with head := buf.get.head +
          ((min (min req (buf.size - wrapOff buf.size g))
              (ring_buf_used_space buf).toNat : Nat) : Int) } },
        wrapOff buf.size g,
        min (min req (buf.size - wrapOff buf.size g))
          (ring_buf_used_space buf).toNat) := by
  unfold ring_buf_get_claim ring_buf_zone_head wrapOff
  rw [hg]
  simp only [add_sub_cancel_left, Int.toNat_natCast, ge_iff_le,
    ring_buf_clamp_eq_min]
  split
  · simp only [add_sub_add_left_eq_sub, Int.toNat_sub]
  · simp only [add_sub_cancel_left, Int.toNat_natCast]

theorem ring_buf_put_ack_fail (buf : RingBuf) (size : Nat)
    (h : ring_buf_zone_claim buf.put < size) :
    ring_buf_put_ack buf size = (buf, -EINVAL) := by
  unfold ring_buf_put_ack
  simp [h]

theorem ring_buf_put_ack_succ (buf : RingBuf) (size : Nat)
    (h : size ≤ ring_buf_zone_claim buf.put) :
    ring_buf_put_ack buf size =
      ({ buf with put :=
          ⟨if (buf.put.tail + (size : Int) - buf.put.base).toNat ≥ buf.size
            then buf.put.base + (buf.size : Int) else buf.put.base,
           buf.put.tail + (size : Int), buf.put.tail + (size : Int)⟩ }, 0) := by
  unfold ring_buf_put_ack
  simp [Nat.not_lt.mpr h]

theorem ring_buf_get_ack_fail (buf : RingBuf) (size : Nat)
    (h : ring_buf_zone_claim buf.get < size) :
    ring_buf_get_ack buf size = (buf, -EINVAL) := by
  unfold ring_buf_get_ack
  simp [h]

theorem ring_buf_get_ack_succ (buf : RingBuf) (size : Nat)
    (h : size ≤ ring_buf_zone_claim buf.get) :
    ring_buf_get_ack buf size =
      ({ buf with get :=
          ⟨if (buf.get.tail + (size : Int) - buf.get.base).toNat ≥ buf.size
            then buf.get.base + (buf.size : Int) else buf.get.base,
           buf.get.tail + (size : Int), buf.get.tail + (size : Int)⟩ }, 0) := by
  unfold ring_buf_get_ack
  simp [Nat.not_lt.mpr h]

theorem writeBytes_read_in (buf : RingBuf) (off : Nat) (bytes : List Nat) (i : Nat)
    (hi : i < bytes.length) : (writeBytes buf off bytes).space (off + i) = bytes.getD i 0 := by
  unfold writeBytes
  simp only
  rw [if_pos ⟨Nat.le_add_right off i, by omega⟩]
  congr 1
  omega

theorem writeBytes_read_out (buf : RingBuf) (off : Nat) (bytes : List Nat) (j : Nat)
    (hj : ¬(off ≤ j ∧ j < off + bytes.length)) :
    (writeBytes buf off bytes).space j = buf.space j := by
  unfold writeBytes
  simp only
  rw [if_neg hj]

theorem ring_buf_put_loop_spec :
    ∀ (fuel : Nat) (buf : RingBuf) (data : List Nat) (h f : Nat),
      data.length ≤ fuel + 1 →
      buf.put.head = buf.put.base + (h : Int) →
      ring_buf_free_space buf = (f : Int) →
      h + f ≤ 2 * buf.size →
      f ≤ buf.size →
      0 < buf.size →
      (ring_buf_put_loop buf data fuel).2 = min data.length f ∧
      (ring_buf_put_loop buf data fuel).1.size = buf.size ∧
      (ring_buf_put_loop buf data fuel).1.put.base = buf.put.base ∧
      (ring_buf_put_loop buf data fuel).1.put.tail = buf.put.tail ∧
      (ring_buf_put_loop buf data fuel).1.put.head =
        buf.put.head + ((min data.length f : Nat) : Int) ∧
      (ring_buf_put_loop buf data fuel).1.get = buf.get ∧
      (∀ i, i < min data.length f →
        (ring_buf_put_loop buf data fuel).1.space ((h + i) % buf.size) = data.getD i 0) ∧
      (∀ j, (∀ i, i < min data.length f → j ≠ (h + i) % buf.size) →
        (ring_buf_put_loop buf data fuel).1.space j = buf.space j) := by
  intro fuel
  induction fuel with
  | zero =>
    intro buf data h f hlen hh hf hsum hfS hS
    have hclaim := ring_buf_put_claim_eq buf data.length h hh
    rw [hf, Int.toNat_natCast] at hclaim
    have hclen : min (min data.length (buf.size - wrapOff buf.size h)) f ≤ data.length :=
      le_trans (Nat.min_le_left _ _) (Nat.min_le_left _ _)
    have hcf : min (min data.length (buf.size - wrapOff buf.size h)) f ≤ f :=
      Nat.min_le_right _ _
    have hcw : min (min data.length (buf.size - wrapOff buf.size h)) f ≤
        buf.size - wrapOff buf.size h :=
      le_trans (Nat.min_le_left _ _) (Nat.min_le_right _ _)
    have hwS : wrapOff buf.size h ≤ buf.size := by
      unfold wrapOff; split <;> omega
    have heq : min (min data.length (buf.size - wrapOff buf.size h)) f =
        min data.length f := by
      rcases Nat.eq_zero_or_pos (min (min data.length (buf.size - wrapOff buf.size h)) f)
        with h0 | h0
      · rcases Nat.min_eq_zero_iff.mp h0 with h1 | h1
        · rcases Nat.min_eq_zero_iff.mp h1 with h2 | h2
          · omega
          · by_cases hc2 : buf.size ≤ h
            · have hw2 : wrapOff buf.size h = h - buf.size := by
                unfold wrapOff; rw [if_pos hc2]
              omega
            · have hw2 : wrapOff buf.size h = h := by
                unfold wrapOff; rw [if_neg hc2]
              omega
        · omega
      · omega
    simp only [ring_buf_put_loop, hclaim]
    refine ⟨heq, rfl, rfl, rfl, by rw [heq]; rfl, rfl, ?_, ?_⟩
    · intro i hi
      rw [← heq] at hi
      have hwlt : wrapOff buf.size h + i < buf.size := by omega
      rw [wrapOff_add_mod buf.size h i hS hwlt, writeBytes_read_in]
      · exact list_getD_take data _ i 0 (by omega)
      · rw [List.length_take]; omega
    · intro j hj
      rw [writeBytes_read_out]
      apply Not.intro
      rintro ⟨h1, h2⟩
      rw [List.length_take] at h2
      have hji : j - wrapOff buf.size h < min data.length f := by omega
      refine hj (j - wrapOff buf.size h) hji ?_
      rw [wrapOff_add_mod buf.size h _ hS (by omega)]
      omega
  | succ fuel ih =>
    intro buf data h f hlen hh hf hsum hfS hS
    have hclaim := ring_buf_put_claim_eq buf data.length h hh
    rw [hf, Int.toNat_natCast] at hclaim
    have hclen : min (min data.length (buf.size - wrapOff buf.size h)) f ≤ data.length :=
      le_trans (Nat.min_le_left _ _) (Nat.min_le_left _ _)
    have hcf : min (min data.length (buf.size - wrapOff buf.size h)) f ≤ f :=
      Nat.min_le_right _ _
    have hcw : min (min data.length (buf.size - wrapOff buf.size h)) f ≤
        buf.size - wrapOff buf.size h :=
      le_trans (Nat.min_le_left _ _) (Nat.min_le_right _ _)
    have hwS : wrapOff buf.size h ≤ buf.size := by
      unfold wrapOff; split <;> omega
    by_cases hstop : min (min data.length (buf.size - wrapOff buf.size h)) f = 0 ∨ data.length - (min (min data.length (buf.size - wrapOff buf.size h)) f) = 0
    · have heq : min (min data.length (buf.size - wrapOff buf.size h)) f = min data.length f := by
        rcases Nat.eq_zero_or_pos (min (min data.length (buf.size - wrapOff buf.size h)) f) with h0 | h0
        · rcases Nat.min_eq_zero_iff.mp h0 with h1 | h1
          · rcases Nat.min_eq_zero_iff.mp h1 with h2 | h2
            · omega
            · by_cases hc2 : buf.size ≤ h
              · have hw2 : wrapOff buf.size h = h - buf.size := by
                  unfold wrapOff; rw [if_pos hc2]
                omega
              · have hw2 : wrapOff buf.size h = h := by
                  unfold wrapOff; rw [if_neg hc2]
                omega
          · omega
        · omega
      simp only [ring_buf_put_loop, hclaim]
      rw [if_pos hstop]
      refine ⟨heq, rfl, rfl, rfl, by rw [heq]; rfl, rfl, ?_, ?_⟩
      · intro i hi
        rw [← heq] at hi
        have hwlt : wrapOff buf.size h + i < buf.size := by omega
        rw [wrapOff_add_mod buf.size h i hS hwlt, writeBytes_read_in]
        · exact list_getD_take data _ i 0 (by omega)
        · rw [List.length_take]; omega
      · intro j hj
        rw [writeBytes_read_out]
        apply Not.intro
        rintro ⟨h1, h2⟩
        rw [List.length_take] at h2
        have hji : j - wrapOff buf.size h < min data.length f := by omega
        refine hj (j - wrapOff buf.size h) hji ?_
        rw [wrapOff_add_mod buf.size h _ hS (by omega)]
        omega
    · push_neg at hstop
      obtain ⟨hc0, hrem⟩ := hstop
      obtain ⟨ih1, ih2, ih3, ih4, ih5, ih6, ih7, ih8⟩ :=
        ih (writeBytes { buf with put := { buf.put with head := buf.put.head + ((min (min data.length (buf.size - wrapOff buf.size h)) f : Nat) : Int) } } (wrapOff buf.size h) (data.take (min (min data.length (buf.size - wrapOff buf.size h)) f)))
          (data.drop (min (min data.length (buf.size - wrapOff buf.size h)) f))
          (h + (min (min data.length (buf.size - wrapOff buf.size h)) f))
          (f - (min (min data.length (buf.size - wrapOff buf.size h)) f))
          (by show (data.drop (min (min data.length (buf.size - wrapOff buf.size h)) f)).length ≤ fuel + 1
              rw [List.length_drop]; omega)
          (by show buf.put.head + ((min (min data.length (buf.size - wrapOff buf.size h)) f : Nat) : Int) =
                buf.put.base + ((h + (min (min data.length (buf.size - wrapOff buf.size h)) f) : Nat) : Int)
              rw [hh]; push_cast; ring)
          (by show (buf.size : Int) -
                (buf.put.head + ((min (min data.length (buf.size - wrapOff buf.size h)) f : Nat) : Int) - buf.get.tail) =
                ((f - (min (min data.length (buf.size - wrapOff buf.size h)) f) : Nat) : Int)
              unfold ring_buf_free_space at hf
              push_cast [Nat.cast_sub hcf]
              omega)
          (by show (h + (min (min data.length (buf.size - wrapOff buf.size h)) f)) + (f - (min (min data.length (buf.size - wrapOff buf.size h)) f)) ≤ 2 * buf.size
              omega)
          (by show f - (min (min data.length (buf.size - wrapOff buf.size h)) f) ≤ buf.size
              omega)
          hS
      have hB2size : ((writeBytes { buf with put := { buf.put with head := buf.put.head + ((min (min data.length (buf.size - wrapOff buf.size h)) f : Nat) : Int) } } (wrapOff buf.size h) (data.take (min (min data.length (buf.size - wrapOff buf.size h)) f)))).size = buf.size := rfl
      simp only [hB2size, List.length_drop] at ih1 ih2 ih3 ih4 ih5 ih6 ih7 ih8
      simp only [ring_buf_put_loop, hclaim]
      rw [if_neg (by omega)]
      refine ⟨?_, ?_, ?_, ?_, ?_, ?_, ?_, ?_⟩
      · show (min (min data.length (buf.size - wrapOff buf.size h)) f) +
          (ring_buf_put_loop (writeBytes { buf with put := { buf.put with head := buf.put.head + ((min (min data.length (buf.size - wrapOff buf.size h)) f : Nat) : Int) } } (wrapOff buf.size h) (data.take (min (min data.length (buf.size - wrapOff buf.size h)) f))) (data.drop (min (min data.length (buf.size - wrapOff buf.size h)) f)) fuel).2 = min data.length f
        rw [ih1]; omega
      · rw [ih2]
      · rw [ih3]; rfl
      · rw [ih4]; rfl
      · show (ring_buf_put_loop (writeBytes { buf with put := { buf.put with head := buf.put.head + ((min (min data.length (buf.size - wrapOff buf.size h)) f : Nat) : Int) } } (wrapOff buf.size h) (data.take (min (min data.length (buf.size - wrapOff buf.size h)) f))) (data.drop (min (min data.length (buf.size - wrapOff buf.size h)) f)) fuel).1.put.head =
          buf.put.head + ((min data.length f : Nat) : Int)
        rw [ih5]
        show buf.put.head + ((min (min data.length (buf.size - wrapOff buf.size h)) f : Nat) : Int) + _ = _
        push_cast
        omega
      · rw [ih6]; rfl
      · intro i hi
        by_cases hic : i < min (min data.length (buf.size - wrapOff buf.size h)) f
        · have havoid : ∀ i2, i2 < min (data.length - (min (min data.length (buf.size - wrapOff buf.size h)) f)) (f - (min (min data.length (buf.size - wrapOff buf.size h)) f)) →
              (h + i) % buf.size ≠ (h + (min (min data.length (buf.size - wrapOff buf.size h)) f) + i2) % buf.size := by
            intro i2 hi2
            have hx1 : i < buf.size := by omega
            have hx2 : (min (min data.length (buf.size - wrapOff buf.size h)) f) + i2 < buf.size := by omega
            have hx3 : i ≠ (min (min data.length (buf.size - wrapOff buf.size h)) f) + i2 := by omega
            have hres := add_mod_ne buf.size h hx1 hx2 hx3
            rw [← Nat.add_assoc] at hres
            exact hres
          rw [ih8 ((h + i) % buf.size) havoid]
          have hwlt : wrapOff buf.size h + i < buf.size := by omega
          rw [wrapOff_add_mod buf.size h i hS hwlt, writeBytes_read_in]
          · exact list_getD_take data _ i 0 (by omega)
          · rw [List.length_take]; omega
        · have hi2 : i - (min (min data.length (buf.size - wrapOff buf.size h)) f) < min (data.length - (min (min data.length (buf.size - wrapOff buf.size h)) f)) (f - (min (min data.length (buf.size - wrapOff buf.size h)) f)) := by
            omega
          have hrw := ih7 (i - (min (min data.length (buf.size - wrapOff buf.size h)) f)) hi2
          rw [show h + (min (min data.length (buf.size - wrapOff buf.size h)) f) + (i - (min (min data.length (buf.size - wrapOff buf.size h)) f)) = h + i from by omega] at hrw
          rw [hrw, list_getD_drop]
          congr 1
          omega
      · intro j hj
        have havoid : ∀ i2, i2 < min (data.length - (min (min data.length (buf.size - wrapOff buf.size h)) f)) (f - (min (min data.length (buf.size - wrapOff buf.size h)) f)) →
            j ≠ (h + (min (min data.length (buf.size - wrapOff buf.size h)) f) + i2) % buf.size := by
          intro i2 hi2
          have hx : (min (min data.length (buf.size - wrapOff buf.size h)) f) + i2 < min data.length f := by omega
          have hres := hj ((min (min data.length (buf.size - wrapOff buf.size h)) f) + i2) hx
          rw [← Nat.add_assoc] at hres
          exact hres
        rw [ih8 j havoid, writeBytes_read_out]
        apply Not.intro
        rintro ⟨h1x, h2x⟩
        rw [List.length_take] at h2x
        have hji : j - wrapOff buf.size h < min data.length f := by omega
        refine hj (j - wrapOff buf.size h) hji ?_
        rw [wrapOff_add_mod buf.size h _ hS (by omega)]
        omega

theorem ring_buf_get_loop_spec :
    ∀ (fuel : Nat) (buf : RingBuf) (size g u : Nat),
      size ≤ fuel + 1 →
      buf.get.head = buf.get.base + (g : Int) →
      ring_buf_used_space buf = (u : Int) →
      g + u ≤ 2 * buf.size →
      0 < buf.size →
      (ring_buf_get_loop buf size fuel).2 =
        (List.range (min size u)).map (fun i => buf.space ((g + i) % buf.size)) ∧
      (ring_buf_get_loop buf size fuel).1.size = buf.size ∧
      (ring_buf_get_loop buf size fuel).1.space = buf.space ∧
      (ring_buf_get_loop buf size fuel).1.put = buf.put ∧
      (ring_buf_get_loop buf size fuel).1.get.base = buf.get.base ∧
      (ring_buf_get_loop buf size fuel).1.get.tail = buf.get.tail ∧
      (ring_buf_get_loop buf size fuel).1.get.head =
        buf.get.head + ((min size u : Nat) : Int) := by
  intro fuel
  induction fuel with
  | zero =>
    intro buf size g u hlen hg hu hsum hS
    have hclaim := ring_buf_get_claim_eq buf size g hg
    rw [hu, Int.toNat_natCast] at hclaim
    have hclen : min (min size (buf.size - wrapOff buf.size g)) u ≤ size :=
      le_trans (Nat.min_le_left _ _) (Nat.min_le_left _ _)
    have hcu : min (min size (buf.size - wrapOff buf.size g)) u ≤ u := Nat.min_le_right _ _
    have hcw : min (min size (buf.size - wrapOff buf.size g)) u ≤ buf.size - wrapOff buf.size g :=
      le_trans (Nat.min_le_left _ _) (Nat.min_le_right _ _)
    have hwS : wrapOff buf.size g ≤ buf.size := by
      unfold wrapOff; split <;> omega
    have heq : min (min size (buf.size - wrapOff buf.size g)) u = min size u := by
      rcases Nat.eq_zero_or_pos (min (min size (buf.size - wrapOff buf.size g)) u) with h0 | h0
      · rcases Nat.min_eq_zero_iff.mp h0 with h1 | h1
        · rcases Nat.min_eq_zero_iff.mp h1 with h2 | h2
          · omega
          · by_cases hc2 : buf.size ≤ g
            · have hw2 : wrapOff buf.size g = g - buf.size := by
                unfold wrapOff; rw [if_pos hc2]
              omega
            · have hw2 : wrapOff buf.size g = g := by
                unfold wrapOff; rw [if_neg hc2]
              omega
        · omega
      · omega
    simp only [ring_buf_get_loop, hclaim]
    refine ⟨?_, by trivial, by trivial, by trivial, by trivial, by trivial, by rw [heq]⟩
    rw [heq]
    refine List.map_congr_left ?_
    intro a ha
    rw [List.mem_range] at ha
    rw [wrapOff_add_mod buf.size g a hS (by omega)]
  | succ fuel ih =>
    intro buf size g u hlen hg hu hsum hS
    have hclaim := ring_buf_get_claim_eq buf size g hg
    rw [hu, Int.toNat_natCast] at hclaim
    have hclen : min (min size (buf.size - wrapOff buf.size g)) u ≤ size :=
      le_trans (Nat.min_le_left _ _) (Nat.min_le_left _ _)
    have hcu : min (min size (buf.size - wrapOff buf.size g)) u ≤ u := Nat.min_le_right _ _
    have hcw : min (min size (buf.size - wrapOff buf.size g)) u ≤ buf.size - wrapOff buf.size g :=
      le_trans (Nat.min_le_left _ _) (Nat.min_le_right _ _)
    have hwS : wrapOff buf.size g ≤ buf.size := by
      unfold wrapOff; split <;> omega
    by_cases hstop : min (min size (buf.size - wrapOff buf.size g)) u = 0 ∨ size - (min (min size (buf.size - wrapOff buf.size g)) u) = 0
    · have heq : min (min size (buf.size - wrapOff buf.size g)) u = min size u := by
        rcases Nat.eq_zero_or_pos (min (min size (buf.size - wrapOff buf.size g)) u) with h0 | h0
        · rcases Nat.min_eq_zero_iff.mp h0 with h1 | h1
          · rcases Nat.min_eq_zero_iff.mp h1 with h2 | h2
            · omega
            · by_cases hc2 : buf.size ≤ g
              · have hw2 : wrapOff buf.size g = g - buf.size := by
                  unfold wrapOff; rw [if_pos hc2]
                omega
              · have hw2 : wrapOff buf.size g = g := by
                  unfold wrapOff; rw [if_neg hc2]
                omega
          · omega
        · omega
      simp only [ring_buf_get_loop, hclaim]
      rw [if_pos hstop]
      refine ⟨?_, by trivial, by trivial, by trivial, by trivial, by trivial, by rw [heq]⟩
      rw [heq]
      refine List.map_congr_left ?_
      intro a ha
      rw [List.mem_range] at ha
      rw [wrapOff_add_mod buf.size g a hS (by omega)]
    · push_neg at hstop
      obtain ⟨hc0, hrem⟩ := hstop
      obtain ⟨ih1, ih2, ih3, ih4, ih5, ih6, ih7⟩ :=
        ih ({ buf with get := { buf.get with head := buf.get.head + ((min (min size (buf.size - wrapOff buf.size g)) u : Nat) : Int) } })
          (size - (min (min size (buf.size - wrapOff buf.size g)) u))
          (g + (min (min size (buf.size - wrapOff buf.size g)) u))
          (u - (min (min size (buf.size - wrapOff buf.size g)) u))
          (by show size - (min (min size (buf.size - wrapOff buf.size g)) u) ≤ fuel + 1
              omega)
          (by show buf.get.head + ((min (min size (buf.size - wrapOff buf.size g)) u : Nat) : Int) =
                buf.get.base + ((g + (min (min size (buf.size - wrapOff buf.size g)) u) : Nat) : Int)
              rw [hg]; push_cast; ring)
          (by show buf.put.tail - (buf.get.head + ((min (min size (buf.size - wrapOff buf.size g)) u : Nat) : Int)) =
                ((u - (min (min size (buf.size - wrapOff buf.size g)) u) : Nat) : Int)
              unfold ring_buf_used_space at hu
              push_cast [Nat.cast_sub hcu]
              omega)
          (by show (g + (min (min size (buf.size - wrapOff buf.size g)) u)) + (u - (min (min size (buf.size - wrapOff buf.size g)) u)) ≤ 2 * buf.size
              omega)
          hS
      have hB2space : (({ buf with get := { buf.get with head := buf.get.head + ((min (min size (buf.size - wrapOff buf.size g)) u : Nat) : Int) } })).space = buf.space := rfl
      have hB2size : (({ buf with get := { buf.get with head := buf.get.head + ((min (min size (buf.size - wrapOff buf.size g)) u : Nat) : Int) } })).size = buf.size := rfl
      simp only [hB2space, hB2size] at ih1 ih2 ih3 ih4 ih5 ih6 ih7
      simp only [ring_buf_get_loop, hclaim]
      rw [if_neg (by omega)]
      refine ⟨?_, ?_, ?_, ?_, ?_, ?_, ?_⟩
      · show (List.range (min (min size (buf.size - wrapOff buf.size g)) u)).map (fun i => buf.space (wrapOff buf.size g + i)) ++
          (ring_buf_get_loop ({ buf with get := { buf.get with head := buf.get.head + ((min (min size (buf.size - wrapOff buf.size g)) u : Nat) : Int) } }) (size - (min (min size (buf.size - wrapOff buf.size g)) u)) fuel).2 =
          (List.range (min size u)).map (fun i => buf.space ((g + i) % buf.size))
        rw [ih1]
        rw [show min size u = (min (min size (buf.size - wrapOff buf.size g)) u) + min (size - (min (min size (buf.size - wrapOff buf.size g)) u)) (u - (min (min size (buf.size - wrapOff buf.size g)) u)) from by omega]
        rw [List.range_add, List.map_append, List.map_map]
        congr 1
        · refine List.map_congr_left ?_
          intro a ha
          rw [List.mem_range] at ha
          rw [wrapOff_add_mod buf.size g a hS (by omega)]
        · refine List.map_congr_left ?_
          intro a ha
          rw [List.mem_range] at ha
          show buf.space ((g + (min (min size (buf.size - wrapOff buf.size g)) u) + a) % buf.size) = buf.space ((g + ((min (min size (buf.size - wrapOff buf.size g)) u) + a)) % buf.size)
          rw [← Nat.add_assoc]
      · rw [ih2]
      · rw [ih3]
      · rw [ih4]
      · rw [ih5]
      · rw [ih6]
      · show (ring_buf_get_loop ({ buf with get := { buf.get with head := buf.get.head + ((min (min size (buf.size - wrapOff buf.size g)) u : Nat) : Int) } }) (size - (min (min size (buf.size - wrapOff buf.size g)) u)) fuel).1.get.head =
          buf.get.head + ((min size u : Nat) : Int)
        rw [ih7]
        show buf.get.head + ((min (min size (buf.size - wrapOff buf.size g)) u : Nat) : Int) + _ = _
        push_cast
        omega

/-- ring_buf_put characterised on a well-formed state: it moves
min(requested, free) bytes, writing them at consecutive physical offsets
mod the capacity starting at the put head's offset, advances only the
put head, and leaves everything else intact. -/
theorem ring_buf_put_inv_spec (buf : RingBuf) (data : List Nat)
    (hinv : ring_buf_inv buf) :
    (ring_buf_put buf data).2 = min data.length (ring_buf_free_space buf).toNat ∧
    (ring_buf_put buf data).1.size = buf.size ∧
    (ring_buf_put buf data).1.put.base = buf.put.base ∧
    (ring_buf_put buf data).1.put.tail = buf.put.tail ∧
    (ring_buf_put buf data).1.put.head = buf.put.head +
      ((min data.length (ring_buf_free_space buf).toNat : Nat) : Int) ∧
    (ring_buf_put buf data).1.get = buf.get ∧
    (∀ i, i < min data.length (ring_buf_free_space buf).toNat →
      (ring_buf_put buf data).1.space
        (((buf.put.head - buf.put.base).toNat + i) % buf.size) = data.getD i 0) ∧
    (∀ j, (∀ i, i < min data.length (ring_buf_free_space buf).toNat →
        j ≠ ((buf.put.head - buf.put.base).toNat + i) % buf.size) →
      (ring_buf_put buf data).1.space j = buf.space j) := by
  obtain ⟨hS, h1, h2, h3, h4, h5, h6, h7, h8, h9, h10, h11⟩ := hinv
  have hh : buf.put.head = buf.put.base +
      (((buf.put.head - buf.put.base).toNat : Nat) : Int) := by omega
  have hf : ring_buf_free_space buf =
      (((ring_buf_free_space buf).toNat : Nat) : Int) := by
    unfold ring_buf_free_space at *; omega
  have hsum : (buf.put.head - buf.put.base).toNat +
      (ring_buf_free_space buf).toNat ≤ 2 * buf.size := by
    unfold ring_buf_free_space at *; omega
  have hfS : (ring_buf_free_space buf).toNat ≤ buf.size := by
    unfold ring_buf_free_space at *; omega
  exact ring_buf_put_loop_spec data.length buf data _ _ (Nat.le_succ _) hh hf hsum hfS hS

/-- ring_buf_get characterised on a well-formed state: it reads
min(requested, used) bytes from consecutive physical offsets mod the
capacity starting at the get head's offset, advances only the get head,
and changes no memory. -/
theorem ring_buf_get_inv_spec (buf : RingBuf) (size : Nat)
    (hinv : ring_buf_inv buf) :
    (ring_buf_get buf size).2 =
      (List.range (min size (ring_buf_used_space buf).toNat)).map
        (fun i => buf.space (((buf.get.head - buf.get.base).toNat + i) % buf.size)) ∧
    (ring_buf_get buf size).1.size = buf.size ∧
    (ring_buf_get buf size).1.space = buf.space ∧
    (ring_buf_get buf size).1.put = buf.put ∧
    (ring_buf_get buf size).1.get.base = buf.get.base ∧
    (ring_buf_get buf size).1.get.tail = buf.get.tail ∧
    (ring_buf_get buf size).1.get.head = buf.get.head +
      ((min size (ring_buf_used_space buf).toNat : Nat) : Int) := by
  obtain ⟨hS, h1, h2, h3, h4, h5, h6, h7, h8, h9, h10, h11⟩ := hinv
  have hg : buf.get.head = buf.get.base +
      (((buf.get.head - buf.get.base).toNat : Nat) : Int) := by omega
  have hu : ring_buf_used_space buf =
      (((ring_buf_used_space buf).toNat : Nat) : Int) := by
    unfold ring_buf_used_space at *; omega
  have hsum : (buf.get.head - buf.get.base).toNat +
      (ring_buf_used_space buf).toNat ≤ 2 * buf.size := by
    unfold ring_buf_used_space at *; omega
  exact ring_buf_get_loop_spec size buf size _ _ (Nat.le_succ _) hg hu hsum hS

/-- ring_buf_put preserves the well-formedness invariant. -/
theorem ring_buf_put_inv (buf : RingBuf) (data : List Nat)
    (hinv : ring_buf_inv buf) : ring_buf_inv (ring_buf_put buf data).1 := by
  obtain ⟨s1, s2, s3, s4, s5, s6, s7, s8⟩ := ring_buf_put_inv_spec buf data hinv
  obtain ⟨hS, h1, h2, h3, h4, h5, h6, h7, h8, h9, h10, h11⟩ := hinv
  have hn : min data.length (ring_buf_free_space buf).toNat ≤
      (ring_buf_free_space buf).toNat := Nat.min_le_right _ _
  unfold ring_buf_inv
  rw [s2, s3, s4, s5, s6]
  unfold ring_buf_free_space at hn ⊢
  refine ⟨hS, by omega, by omega, by omega, by omega, by omega, by omega,
    by omega, by omega, by omega, by omega, h11⟩

/-- ring_buf_get preserves the well-formedness invariant. -/
theorem ring_buf_get_inv (buf : RingBuf) (size : Nat)
    (hinv : ring_buf_inv buf) : ring_buf_inv (ring_buf_get buf size).1 := by
  obtain ⟨s1, s2, s3, s4, s5, s6, s7⟩ := ring_buf_get_inv_spec buf size hinv
  obtain ⟨hS, h1, h2, h3, h4, h5, h6, h7, h8, h9, h10, h11⟩ := hinv
  have hn : min size (ring_buf_used_space buf).toNat ≤
      (ring_buf_used_space buf).toNat := Nat.min_le_right _ _
  unfold ring_buf_inv
  rw [s2, s4, s5, s6, s7]
  unfold ring_buf_used_space at hn ⊢
  refine ⟨hS, by omega, by omega, by omega, by omega, by omega, by omega,
    by omega, by omega, by omega, by omega, h11⟩

/-- ring_buf_put_ack preserves the well-formedness invariant. -/
theorem ring_buf_put_ack_inv (buf : RingBuf) (size : Nat)
    (hinv : ring_buf_inv buf) : ring_buf_inv (ring_buf_put_ack buf size).1 := by
  by_cases hc : size > ring_buf_zone_claim buf.put
  · rw [ring_buf_put_ack_fail buf size hc]
    exact hinv
  · push_neg at hc
    rw [ring_buf_put_ack_succ buf size hc]
    obtain ⟨hS, h1, h2, h3, h4, h5, h6, h7, h8, h9, h10, h11⟩ := hinv
    unfold ring_buf_zone_claim at hc
    unfold ring_buf_inv
    dsimp only
    by_cases hreb : (buf.put.tail + (size : Int) - buf.put.base).toNat ≥ buf.size
    · rw [if_pos hreb]
      refine ⟨hS, by omega, by omega, by omega, by omega, by omega, by omega,
        by omega, by omega, by omega, by omega, ?_⟩
      show (buf.put.base + (buf.size : Int) - buf.get.base) % (buf.size : Int) = 0
      rw [show buf.put.base + (buf.size : Int) - buf.get.base =
        buf.put.base - buf.get.base + (buf.size : Int) * 1 from by ring,
        Int.add_mul_emod_self_left]
      exact h11
    · rw [if_neg hreb]
      refine ⟨hS, by omega, by omega, by omega, by omega, by omega, by omega,
        by omega, by omega, by omega, by omega, h11⟩

/-- ring_buf_get_ack preserves the well-formedness invariant. -/
theorem ring_buf_get_ack_inv (buf : RingBuf) (size : Nat)
    (hinv : ring_buf_inv buf) : ring_buf_inv (ring_buf_get_ack buf size).1 := by
  by_cases hc : size > ring_buf_zone_claim buf.get
  · rw [ring_buf_get_ack_fail buf size hc]
    exact hinv
  · push_neg at hc
    rw [ring_buf_get_ack_succ buf size hc]
    obtain ⟨hS, h1, h2, h3, h4, h5, h6, h7, h8, h9, h10, h11⟩ := hinv
    unfold ring_buf_zone_claim at hc
    unfold ring_buf_inv
    dsimp only
    by_cases hreb : (buf.get.tail + (size : Int) - buf.get.base).toNat ≥ buf.size
    · rw [if_pos hreb]
      refine ⟨hS, by omega, by omega, by omega, by omega, by omega, by omega,
        by omega, by omega, by omega, by omega, ?_⟩
      show (buf.put.base - (buf.get.base + (buf.size : Int))) % (buf.size : Int) = 0
      rw [show buf.put.base - (buf.get.base + (buf.size : Int)) =
        buf.put.base - buf.get.base + (buf.size : Int) * (-1) from by ring,
        Int.add_mul_emod_self_left]
      exact h11
    · rw [if_neg hreb]
      refine ⟨hS, by omega, by omega, by omega, by omega, by omega, by omega,
        by omega, by omega, by omega, by omega, h11⟩

/-- Resetting a positive-capacity buffer establishes the invariant. -/
theorem ring_buf_reset_inv (buf : RingBuf) (base : Int) (hS : 0 < buf.size) :
    ring_buf_inv (ring_buf_reset buf base) := by
  unfold ring_buf_inv ring_buf_reset ring_buf_zone_reset
  dsimp only
  refine ⟨hS, by omega, by omega, by omega, by omega, by omega, by omega,
    by omega, by omega, by omega, by omega, by simp⟩

/-- A concrete 4-byte buffer in its reset state, used to instantiate
hypotheses of the claim theorems. -/
def bufW : RingBuf := { space := fun _ => 0, size := 4, put := ⟨0, 0, 0⟩, get := ⟨0, 0, 0⟩ }

/-- A concrete full 4-byte buffer holding bytes 10,11,12,13 (the state
reached from reset by putting and acknowledging 4 bytes). -/
def bufF4 : RingBuf := { space := fun i => 10 + i, size := 4, put := ⟨4, 4, 4⟩, get := ⟨0, 0, 0⟩ }

/-- A concrete 4-byte buffer with 3 bytes committed (not full; the state
reached from reset by putting and acknowledging 3 bytes). -/
def bufP3 : RingBuf := { space := fun _ => 0, size := 4, put := ⟨0, 3, 3⟩, get := ⟨0, 0, 0⟩ }

/-- A concrete 2-byte buffer with one outstanding unacknowledged put
claim (the state reached from reset by ring_buf_put_claim of 1 byte). -/
def bufClaim1 : RingBuf := { space := fun _ => 0, size := 2, put := ⟨0, 1, 0⟩, get := ⟨0, 0, 0⟩ }

/-- A concrete full 4-byte buffer with an outstanding 3-byte get claim
(the state reached from bufF4 by ring_buf_get_claim of 3 bytes). -/
def bufG3 : RingBuf := { space := fun i => 10 + i, size := 4, put := ⟨4, 4, 4⟩, get := ⟨0, 3, 0⟩ }

/-- Claim C1: for every well-formed ring buffer and requested size,
ring_buf_put_claim never fails: it returns granted equal to the minimum
of the requested size, the buffer size minus the put head's offset from
its (possibly rebased) base, and the free space; it advances put.head by
exactly the granted amount and touches nothing else; and the returned
space is the data pointer plus the put head's offset, which lies within
[0, size). -/
theorem claim_C1 (buf : RingBuf) (req h : Nat)
    (hinv : ring_buf_inv buf)
    (hh : buf.put.head = buf.put.base + (h : Int)) :
    (ring_buf_put_claim buf req).2.2 =
      min req (min (buf.size - wrapOff buf.size h) (ring_buf_free_space buf).toNat) ∧
    (ring_buf_put_claim buf req).1.put.head =
      buf.put.head + (((ring_buf_put_claim buf req).2.2 : Nat) : Int) ∧
    (ring_buf_put_claim buf req).1.put.tail = buf.put.tail ∧
    (ring_buf_put_claim buf req).1.put.base = buf.put.base ∧
    (ring_buf_put_claim buf req).1.get = buf.get ∧
    (ring_buf_put_claim buf req).1.size = buf.size ∧
    (ring_buf_put_claim buf req).1.space = buf.space ∧
    (ring_buf_put_claim buf req).2.1 = wrapOff buf.size h ∧
    (ring_buf_put_claim buf req).2.1 < buf.size := by
  obtain ⟨hS, h1, h2, h3, h4, h5, h6, h7, h8, h9, h10, h11⟩ := hinv
  have hclaim := ring_buf_put_claim_eq buf req h hh
  rw [hclaim]
  have hh2 : h < 2 * buf.size := by omega
  refine ⟨by rw [Nat.min_assoc], rfl, rfl, rfl, rfl, rfl, rfl, rfl, ?_⟩
  show wrapOff buf.size h < buf.size
  unfold wrapOff
  split <;> omega

theorem claim_C1_witness :
    ring_buf_inv bufW ∧ (ring_buf_put_claim bufW 3).2.2 = 3 ∧
    (ring_buf_put_claim bufW 3).2.1 = 0 := by
  refine ⟨by decide, ?_, ?_⟩
  · have hres := claim_C1 bufW 3 0 (by decide) (by decide)
    rw [hres.1]
    decide
  · have hres := claim_C1 bufW 3 0 (by decide) (by decide)
    rw [hres.2.2.2.2.2.2.2.1]
    decide

/-- Claim C2: ring_buf_put_ack fails with -EINVAL exactly when the size
exceeds the outstanding put claim (put.head - put.tail), leaving the
buffer completely unchanged on failure; on success it returns 0, sets
put.tail += size and put.head = put.tail, and advances put.base by one
buffer length exactly when the new tail has reached a full buffer length
past the base.  ring_buf_get_ack behaves symmetrically on the get span. -/
theorem claim_C2 (buf : RingBuf) (size : Nat) (hinv : ring_buf_inv buf) :
    ((ring_buf_put_ack buf size).2 = -EINVAL ↔
      buf.put.head - buf.put.tail < (size : Int)) ∧
    (buf.put.head - buf.put.tail < (size : Int) →
      (ring_buf_put_ack buf size).1 = buf) ∧
    ((size : Int) ≤ buf.put.head - buf.put.tail →
      (ring_buf_put_ack buf size).2 = 0 ∧
      (ring_buf_put_ack buf size).1.put.tail = buf.put.tail + size ∧
      (ring_buf_put_ack buf size).1.put.head = buf.put.tail + size ∧
      ((ring_buf_put_ack buf size).1.put.base =
        if (buf.size : Int) ≤ buf.put.tail + size - buf.put.base
        then buf.put.base + buf.size else buf.put.base) ∧
      (ring_buf_put_ack buf size).1.get = buf.get ∧
      (ring_buf_put_ack buf size).1.space = buf.space ∧
      (ring_buf_put_ack buf size).1.size = buf.size) ∧
    ((ring_buf_get_ack buf size).2 = -EINVAL ↔
      buf.get.head - buf.get.tail < (size : Int)) ∧
    (buf.get.head - buf.get.tail < (size : Int) →
      (ring_buf_get_ack buf size).1 = buf) ∧
    ((size : Int) ≤ buf.get.head - buf.get.tail →
      (ring_buf_get_ack buf size).2 = 0 ∧
      (ring_buf_get_ack buf size).1.get.tail = buf.get.tail + size ∧
      (ring_buf_get_ack buf size).1.get.head = buf.get.tail + size ∧
      ((ring_buf_get_ack buf size).1.get.base =
        if (buf.size : Int) ≤ buf.get.tail + size - buf.get.base
        then buf.get.base + buf.size else buf.get.base) ∧
      (ring_buf_get_ack buf size).1.put = buf.put ∧
      (ring_buf_get_ack buf size).1.space = buf.space ∧
      (ring_buf_get_ack buf size).1.size = buf.size) := by
  obtain ⟨hS, h1, h2, h3, h4, h5, h6, h7, h8, h9, h10, h11⟩ := hinv
  refine ⟨?_, ?_, ?_, ?_, ?_, ?_⟩
  · constructor
    · intro hres
      by_contra hlt
      push_neg at hlt
      have hc : size ≤ ring_buf_zone_claim buf.put := by
        unfold ring_buf_zone_claim; omega
      rw [ring_buf_put_ack_succ buf size hc] at hres
      simp at hres
      exact absurd hres (by decide)
    · intro hlt
      have hc : ring_buf_zone_claim buf.put < size := by
        unfold ring_buf_zone_claim; omega
      rw [ring_buf_put_ack_fail buf size hc]
  · intro hlt
    have hc : ring_buf_zone_claim buf.put < size := by
      unfold ring_buf_zone_claim; omega
    rw [ring_buf_put_ack_fail buf size hc]
  · intro hle
    have hc : size ≤ ring_buf_zone_claim buf.put := by
      unfold ring_buf_zone_claim; omega
    rw [ring_buf_put_ack_succ buf size hc]
    have hiff : ((buf.put.tail + (size : Int) - buf.put.base).toNat ≥ buf.size) ↔
        ((buf.size : Int) ≤ buf.put.tail + size - buf.put.base) := by omega
    refine ⟨rfl, rfl, rfl, ?_, rfl, rfl, rfl⟩
    show (if (buf.put.tail + (size : Int) - buf.put.base).toNat ≥ buf.size
      then buf.put.base + (buf.size : Int) else buf.put.base) = _
    simp only [hiff]
  · constructor
    · intro hres
      by_contra hlt
      push_neg at hlt
      have hc : size ≤ ring_buf_zone_claim buf.get := by
        unfold ring_buf_zone_claim; omega
      rw [ring_buf_get_ack_succ buf size hc] at hres
      simp at hres
      exact absurd hres (by decide)
    · intro hlt
      have hc : ring_buf_zone_claim buf.get < size := by
        unfold ring_buf_zone_claim; omega
      rw [ring_buf_get_ack_fail buf size hc]
  · intro hlt
    have hc : ring_buf_zone_claim buf.get < size := by
      unfold ring_buf_zone_claim; omega
    rw [ring_buf_get_ack_fail buf size hc]
  · intro hle
    have hc : size ≤ ring_buf_zone_claim buf.get := by
      unfold ring_buf_zone_claim; omega
    rw [ring_buf_get_ack_succ buf size hc]
    have hiff : ((buf.get.tail + (size : Int) - buf.get.base).toNat ≥ buf.size) ↔
        ((buf.size : Int) ≤ buf.get.tail + size - buf.get.base) := by omega
    refine ⟨rfl, rfl, rfl, ?_, rfl, rfl, rfl⟩
    show (if (buf.get.tail + (size : Int) - buf.get.base).toNat ≥ buf.size
      then buf.get.base + (buf.size : Int) else buf.get.base) = _
    simp only [hiff]

theorem claim_C2_witness :
    ring_buf_inv bufF4 ∧ ring_buf_inv bufG3 ∧
    ((ring_buf_put_ack bufF4 1).2 = -EINVAL ∧ (ring_buf_put_ack bufF4 1).1 = bufF4) ∧
    ((ring_buf_get_ack bufG3 3).2 = 0 ∧ (ring_buf_get_ack bufG3 3).1.get.tail = 3) := by
  have hres := claim_C2 bufF4 1 (by decide)
  have hres2 := claim_C2 bufG3 3 (by decide)
  refine ⟨by decide, by decide, ⟨?_, ?_⟩, ?_, ?_⟩
  · exact hres.1.mpr (by decide)
  · exact hres.2.1 (by decide)
  · exact (hres2.2.2.2.2.2 (by decide)).1
  · have := (hres2.2.2.2.2.2 (by decide)).2.1
    rw [this]
    decide

/-- Claim C5 counterexample: ring_buf_put does not acknowledge.  On a
freshly reset 4-byte buffer a put of one byte returns 1, yet put.tail
has not advanced by 1 (it is unchanged) and the byte is not visible as
used space, refuting the claim as stated. -/
theorem claim_C5_counterexample :
    (ring_buf_put bufW [7]).2 = 1 ∧
    ¬ (ring_buf_put bufW [7]).1.put.tail =
        bufW.put.tail + (((ring_buf_put bufW [7]).2 : Nat) : Int) ∧
    ring_buf_used_space (ring_buf_put bufW [7]).1 = 0 := by decide

/-- Claim C5 (amended): after ring_buf_put returns n, the bytes are
moved (put.head has advanced by n = min(size, free)) but they are not
acknowledged: put.tail and the used space are unchanged.  They become
committed and visible as used space only after an explicit
ring_buf_put_ack of n, which always succeeds and advances put.tail by
exactly n. -/
theorem claim_C5 (buf : RingBuf) (data : List Nat) (hinv : ring_buf_inv buf) :
    (ring_buf_put buf data).2 = min data.length (ring_buf_free_space buf).toNat ∧
    (ring_buf_put buf data).1.put.tail = buf.put.tail ∧
    (ring_buf_put buf data).1.put.head =
      buf.put.head + (((ring_buf_put buf data).2 : Nat) : Int) ∧
    ring_buf_used_space (ring_buf_put buf data).1 = ring_buf_used_space buf ∧
    (ring_buf_put_ack (ring_buf_put buf data).1 (ring_buf_put buf data).2).2 = 0 ∧
    (ring_buf_put_ack (ring_buf_put buf data).1 (ring_buf_put buf data).2).1.put.tail =
      buf.put.tail + (((ring_buf_put buf data).2 : Nat) : Int) ∧
    ring_buf_used_space
        (ring_buf_put_ack (ring_buf_put buf data).1 (ring_buf_put buf data).2).1 =
      ring_buf_used_space buf + (((ring_buf_put buf data).2 : Nat) : Int) := by
  obtain ⟨s1, s2, s3, s4, s5, s6, s7, s8⟩ := ring_buf_put_inv_spec buf data hinv
  obtain ⟨hS, h1, h2, h3, h4, h5, h6, h7, h8, h9, h10, h11⟩ := hinv
  have hc : (ring_buf_put buf data).2 ≤
      ring_buf_zone_claim (ring_buf_put buf data).1.put := by
    unfold ring_buf_zone_claim
    rw [s4, s5, s1]
    omega
  have hack := ring_buf_put_ack_succ (ring_buf_put buf data).1 (ring_buf_put buf data).2 hc
  refine ⟨s1, s4, by rw [s5, s1], ?_, ?_, ?_, ?_⟩
  · unfold ring_buf_used_space
    rw [s4, s6]
  · rw [hack]
  · rw [hack]
    dsimp only
    rw [s4]
  · rw [hack]
    unfold ring_buf_used_space
    dsimp only
    rw [s4, s6]
    ring

theorem claim_C5_witness :
    ring_buf_inv bufW ∧
    (ring_buf_put bufW [7, 8]).2 = 2 ∧
    (ring_buf_put bufW [7, 8]).1.put.tail = 0 ∧
    ring_buf_used_space
      (ring_buf_put_ack (ring_buf_put bufW [7, 8]).1 (ring_buf_put bufW [7, 8]).2).1 = 2 := by
  have hres := claim_C5 bufW [7, 8] (by decide)
  refine ⟨by decide, ?_, ?_, ?_⟩
  · rw [hres.1]; decide
  · rw [hres.2.1]; decide
  · rw [hres.2.2.2.2.2.2]; decide

/-- Claim C3 counterexample: with an outstanding unacknowledged put
claim, a failing ring_buf_put_all does change observable state: on
bufClaim1 (capacity 2, one claimed byte, free space 1) putting 2 bytes
fails with -EMSGSIZE yet the free space changes from 1 to 2, because the
rollback acknowledgement of zero collapses the pre-existing claim. -/
theorem claim_C3_counterexample :
    (ring_buf_put_all bufClaim1 [1, 2]).2 = -EMSGSIZE ∧
    ring_buf_free_space bufClaim1 = 1 ∧
    ¬ ring_buf_free_space (ring_buf_put_all bufClaim1 [1, 2]).1 =
        ring_buf_free_space bufClaim1 := by decide

/-- Claim C3 (amended): on a well-formed state with no outstanding
claim, ring_buf_put_all fails with -EMSGSIZE exactly when the requested
size exceeds the free space, in which case the zones and the used and
free space are unchanged; otherwise it returns 0 and commits exactly the
requested bytes.  ring_buf_get_all is symmetric with -EAGAIN and the
used space. -/
theorem claim_C3 (buf : RingBuf) (data : List Nat) (size : Nat)
    (hinv : ring_buf_inv buf) (hq : ring_buf_quiet buf) :
    ((ring_buf_put_all buf data).2 = -EMSGSIZE ↔
      (ring_buf_free_space buf).toNat < data.length) ∧
    ((ring_buf_free_space buf).toNat < data.length →
      (ring_buf_put_all buf data).1.put.base = buf.put.base ∧
      (ring_buf_put_all buf data).1.put.head = buf.put.head ∧
      (ring_buf_put_all buf data).1.put.tail = buf.put.tail ∧
      (ring_buf_put_all buf data).1.get = buf.get ∧
      ring_buf_used_space (ring_buf_put_all buf data).1 = ring_buf_used_space buf ∧
      ring_buf_free_space (ring_buf_put_all buf data).1 = ring_buf_free_space buf) ∧
    (data.length ≤ (ring_buf_free_space buf).toNat →
      (ring_buf_put_all buf data).2 = 0 ∧
      ring_buf_used_space (ring_buf_put_all buf data).1 =
        ring_buf_used_space buf + data.length ∧
      ring_buf_free_space (ring_buf_put_all buf data).1 =
        ring_buf_free_space buf - data.length) ∧
    ((ring_buf_get_all buf size).2.1 = -EAGAIN ↔
      (ring_buf_used_space buf).toNat < size) ∧
    ((ring_buf_used_space buf).toNat < size →
      (ring_buf_get_all buf size).1.get.base = buf.get.base ∧
      (ring_buf_get_all buf size).1.get.head = buf.get.head ∧
      (ring_buf_get_all buf size).1.get.tail = buf.get.tail ∧
      (ring_buf_get_all buf size).1.put = buf.put ∧
      ring_buf_used_space (ring_buf_get_all buf size).1 = ring_buf_used_space buf ∧
      ring_buf_free_space (ring_buf_get_all buf size).1 = ring_buf_free_space buf) ∧
    (size ≤ (ring_buf_used_space buf).toNat →
      (ring_buf_get_all buf size).2.1 = 0 ∧
      ring_buf_used_space (ring_buf_get_all buf size).1 =
        ring_buf_used_space buf - size ∧
      ring_buf_free_space (ring_buf_get_all buf size).1 =
        ring_buf_free_space buf + size) := by
  obtain ⟨s1, s2, s3, s4, s5, s6, s7, s8⟩ := ring_buf_put_inv_spec buf data hinv
  obtain ⟨g1, g2, g3, g4, g5, g6, g7⟩ := ring_buf_get_inv_spec buf size hinv
  obtain ⟨hS, h1, h2, h3, h4, h5, h6, h7, h8, h9, h10, h11⟩ := hinv
  obtain ⟨hqp, hqg⟩ := hq
  have hglen : (ring_buf_get buf size).2.length =
      min size (ring_buf_used_space buf).toNat := by
    rw [g1, List.length_map, List.length_range]
  have hput : ((ring_buf_put_all buf data).2 = -EMSGSIZE ↔
      (ring_buf_free_space buf).toNat < data.length) ∧
    ((ring_buf_free_space buf).toNat < data.length →
      (ring_buf_put_all buf data).1.put.base = buf.put.base ∧
      (ring_buf_put_all buf data).1.put.head = buf.put.head ∧
      (ring_buf_put_all buf data).1.put.tail = buf.put.tail ∧
      (ring_buf_put_all buf data).1.get = buf.get ∧
      ring_buf_used_space (ring_buf_put_all buf data).1 = ring_buf_used_space buf ∧
      ring_buf_free_space (ring_buf_put_all buf data).1 = ring_buf_free_space buf) ∧
    (data.length ≤ (ring_buf_free_space buf).toNat →
      (ring_buf_put_all buf data).2 = 0 ∧
      ring_buf_used_space (ring_buf_put_all buf data).1 =
        ring_buf_used_space buf + data.length ∧
      ring_buf_free_space (ring_buf_put_all buf data).1 =
        ring_buf_free_space buf - data.length) := by
    simp only [ring_buf_put_all]
    by_cases hfail : (ring_buf_free_space buf).toNat < data.length
    · have hcnd : min data.length (ring_buf_free_space buf).toNat < data.length := by
        omega
      have hneg : -EMSGSIZE < (0 : Int) := by decide
      rw [s1, if_pos hcnd, if_pos hneg]
      have hack0 := ring_buf_put_ack_succ (ring_buf_put buf data).1 0 (Nat.zero_le _)
      rw [hack0]
      have hcond : ¬ (((ring_buf_put buf data).1.put.tail + ((0 : Nat) : Int) -
          (ring_buf_put buf data).1.put.base).toNat ≥ (ring_buf_put buf data).1.size) := by
        rw [s4, s3, s2]; push_cast; omega
      rw [if_neg hcond]
      refine ⟨iff_of_true rfl hfail, ?_, ?_⟩
      · intro _
        unfold ring_buf_used_space ring_buf_free_space
        dsimp only
        rw [s4, s3, s2, s6]
        refine ⟨rfl, by push_cast; omega, by push_cast; omega, rfl, by push_cast; omega,
          by push_cast; omega⟩
      · intro hok
        omega
    · have hcnd : ¬ (min data.length (ring_buf_free_space buf).toNat < data.length) := by
        omega
      have hneg : ¬ ((0 : Int) < 0) := by decide
      have hc : min data.length (ring_buf_free_space buf).toNat ≤
          ring_buf_zone_claim (ring_buf_put buf data).1.put := by
        unfold ring_buf_zone_claim
        rw [s4, s5]
        omega
      have hack := ring_buf_put_ack_succ (ring_buf_put buf data).1
        (min data.length (ring_buf_free_space buf).toNat) hc
      rw [s1, if_neg hcnd, if_neg hneg, hack]
      refine ⟨iff_of_false (by decide) hfail, fun hx => absurd hx hfail, ?_⟩
      intro hok
      have hmin : min data.length (ring_buf_free_space buf).toNat = data.length := by
        omega
      rw [hmin]
      unfold ring_buf_used_space ring_buf_free_space
      dsimp only
      rw [s4, s2, s6]
      refine ⟨rfl, by push_cast; omega, by push_cast; omega⟩
  have hget : ((ring_buf_get_all buf size).2.1 = -EAGAIN ↔
      (ring_buf_used_space buf).toNat < size) ∧
    ((ring_buf_used_space buf).toNat < size →
      (ring_buf_get_all buf size).1.get.base = buf.get.base ∧
      (ring_buf_get_all buf size).1.get.head = buf.get.head ∧
      (ring_buf_get_all buf size).1.get.tail = buf.get.tail ∧
      (ring_buf_get_all buf size).1.put = buf.put ∧
      ring_buf_used_space (ring_buf_get_all buf size).1 = ring_buf_used_space buf ∧
      ring_buf_free_space (ring_buf_get_all buf size).1 = ring_buf_free_space buf) ∧
    (size ≤ (ring_buf_used_space buf).toNat →
      (ring_buf_get_all buf size).2.1 = 0 ∧
      ring_buf_used_space (ring_buf_get_all buf size).1 =
        ring_buf_used_space buf - size ∧
      ring_buf_free_space (ring_buf_get_all buf size).1 =
        ring_buf_free_space buf + size) := by
    simp only [ring_buf_get_all]
    by_cases hgfail : (ring_buf_used_space buf).toNat < size
    · have hcnd : min size (ring_buf_used_space buf).toNat < size := by omega
      have hneg : -EAGAIN < (0 : Int) := by decide
      rw [hglen, if_pos hcnd, if_pos hneg]
      have hack0 := ring_buf_get_ack_succ (ring_buf_get buf size).1 0 (Nat.zero_le _)
      rw [hack0]
      have hcond : ¬ (((ring_buf_get buf size).1.get.tail + ((0 : Nat) : Int) -
          (ring_buf_get buf size).1.get.base).toNat ≥ (ring_buf_get buf size).1.size) := by
        rw [g6, g5, g2]; push_cast; omega
      rw [if_neg hcond]
      refine ⟨iff_of_true rfl hgfail, ?_, ?_⟩
      · intro _
        unfold ring_buf_used_space ring_buf_free_space
        dsimp only
        rw [g6, g5, g2, g4]
        refine ⟨rfl, by push_cast; omega, by push_cast; omega, rfl, by push_cast; omega,
          by push_cast; omega⟩
      · intro hok
        omega
    · have hcnd : ¬ (min size (ring_buf_used_space buf).toNat < size) := by omega
      have hneg : ¬ ((0 : Int) < 0) := by decide
      have hc : min size (ring_buf_used_space buf).toNat ≤
          ring_buf_zone_claim (ring_buf_get buf size).1.get := by
        unfold ring_buf_zone_claim
        rw [g6, g7]
        omega
      have hack := ring_buf_get_ack_succ (ring_buf_get buf size).1
        (min size (ring_buf_used_space buf).toNat) hc
      rw [hglen, if_neg hcnd, if_neg hneg, hack]
      refine ⟨iff_of_false (by decide) hgfail, fun hx => absurd hx hgfail, ?_⟩
      intro hok
      have hmin : min size (ring_buf_used_space buf).toNat = size := by omega
      rw [hmin]
      unfold ring_buf_used_space ring_buf_free_space
      dsimp only
      rw [g6, g2, g4]
      refine ⟨rfl, by push_cast; omega, by push_cast; omega⟩
  exact ⟨hput.1, hput.2.1, hput.2.2, hget.1, hget.2.1, hget.2.2⟩

theorem claim_C3_witness :
    ring_buf_inv bufW ∧ ring_buf_quiet bufW ∧
    ((ring_buf_put_all bufW [1, 2, 3, 4, 5]).2 = -EMSGSIZE ∧
     ring_buf_free_space (ring_buf_put_all bufW [1, 2, 3, 4, 5]).1 = 4) ∧
    ((ring_buf_put_all bufW [1, 2]).2 = 0 ∧
     ring_buf_used_space (ring_buf_put_all bufW [1, 2]).1 = 2) ∧
    ((ring_buf_get_all bufW 1).2.1 = -EAGAIN ∧
     ring_buf_used_space (ring_buf_get_all bufW 1).1 = 0) := by
  have hres := claim_C3 bufW [1, 2, 3, 4, 5] 1 (by decide) (by decide)
  have hres2 := claim_C3 bufW [1, 2] 1 (by decide) (by decide)
  refine ⟨by decide, by decide, ⟨?_, ?_⟩, ⟨?_, ?_⟩, ?_, ?_⟩
  · exact hres.1.mpr (by decide)
  · rw [(hres.2.1 (by decide)).2.2.2.2.2]; decide
  · exact (hres2.2.2.1 (by decide)).1
  · rw [(hres2.2.2.1 (by decide)).2.1]; decide
  · exact hres.2.2.2.1.mpr (by decide)
  · rw [(hres.2.2.2.2.1 (by decide)).2.2.2.2.1]; decide

theorem list_getD_append (a b : List Nat) (i d : Nat) (h : i < a.length) :
    (a ++ b).getD i d = a.getD i d := by
  induction a generalizing i with
  | nil => simp at h
  | cons x t ih =>
    match i with
    | 0 => rfl
    | i + 1 =>
      simp only [List.cons_append, List.getD_cons_succ]
      exact ih i (by simpa using h)

theorem list_getD_append_right (a b : List Nat) (i d : Nat) (h : a.length ≤ i) :
    (a ++ b).getD i d = b.getD (i - a.length) d := by
  induction a generalizing i with
  | nil => simp
  | cons x t ih =>
    match i, h with
    | i + 1, h =>
      simp only [List.cons_append, List.getD_cons_succ, List.length_cons]
      rw [ih i (by simpa using h)]
      congr 1
      omega

/-- Success-path characterisation of ring_buf_item_put on a well-formed
state with enough free space: it returns 0, commits exactly 2 + length
bytes (tail and head end together), writes the two length bytes followed
by the payload at consecutive physical offsets from the put head, keeps
the get zone and the capacity, and preserves the invariant. -/
theorem ring_buf_item_put_spec (buf : RingBuf) (data : List Nat) (len : Nat)
    (hinv : ring_buf_inv buf) (hlen : data.length = len)
    (hok : 2 + len ≤ (ring_buf_free_space buf).toNat) :
    (ring_buf_item_put buf data len).2 = 0 ∧
    (ring_buf_item_put buf data len).1.size = buf.size ∧
    (ring_buf_item_put buf data len).1.get = buf.get ∧
    (ring_buf_item_put buf data len).1.put.tail =
      buf.put.tail + ((2 + len : Nat) : Int) ∧
    (ring_buf_item_put buf data len).1.put.head =
      buf.put.tail + ((2 + len : Nat) : Int) ∧
    ring_buf_used_space (ring_buf_item_put buf data len).1 =
      ring_buf_used_space buf + ((2 + len : Nat) : Int) ∧
    (∀ i, i < 2 + len →
      (ring_buf_item_put buf data len).1.space
        (((buf.put.head - buf.put.base).toNat + i) % buf.size) =
        (enc16 len ++ data).getD i 0) ∧
    ring_buf_inv (ring_buf_item_put buf data len).1 := by
  simp only [ring_buf_item_put]
  rw [if_neg (by omega)]
  have htake : data.take len = data := by rw [← hlen]; exact List.take_length data
  rw [htake]
  obtain ⟨s1, s2, s3, s4, s5, s6, s7, s8⟩ := ring_buf_put_inv_spec buf (enc16 len) hinv
  have hinv1 := ring_buf_put_inv buf (enc16 len) hinv
  obtain ⟨t1, t2, t3, t4, t5, t6, t7, t8⟩ :=
    ring_buf_put_inv_spec (ring_buf_put buf (enc16 len)).1 data hinv1
  have hinv2 := ring_buf_put_inv (ring_buf_put buf (enc16 len)).1 data hinv1
  obtain ⟨hS, h1, h2, h3, h4, h5, h6, h7, h8, h9, h10, h11⟩ := hinv
  have hmin1 : min (enc16 len).length (ring_buf_free_space buf).toNat = 2 := by
    show min 2 _ = 2
    omega
  rw [hmin1] at s1 s5
  simp only [hmin1] at s7 s8
  have hfree1 : ring_buf_free_space (ring_buf_put buf (enc16 len)).1 =
      ring_buf_free_space buf - 2 := by
    unfold ring_buf_free_space at *
    rw [s2, s5, s6]
    push_cast
    ring
  have hmin2 : min data.length
      (ring_buf_free_space (ring_buf_put buf (enc16 len)).1).toNat = len := by
    rw [hfree1, hlen]
    unfold ring_buf_free_space at *
    omega
  rw [hmin2] at t1 t5
  simp only [hmin2] at t7 t8
  have hoff1 : ((ring_buf_put buf (enc16 len)).1.put.head -
      (ring_buf_put buf (enc16 len)).1.put.base).toNat =
      (buf.put.head - buf.put.base).toNat + 2 := by
    rw [s5, s3]
    push_cast
    omega
  rw [s2, hoff1] at t7 t8
  have hc : (ring_buf_put buf (enc16 len)).2 + (ring_buf_put (ring_buf_put buf (enc16 len)).1 data).2 ≤
      ring_buf_zone_claim (ring_buf_put (ring_buf_put buf (enc16 len)).1 data).1.put := by
    unfold ring_buf_zone_claim
    rw [t4, s4, t5, s5, s1, t1]
    push_cast
    omega
  have hack := ring_buf_put_ack_succ
    (ring_buf_put (ring_buf_put buf (enc16 len)).1 data).1
    ((ring_buf_put buf (enc16 len)).2 + (ring_buf_put (ring_buf_put buf (enc16 len)).1 data).2) hc
  have hinv3 := ring_buf_put_ack_inv
    (ring_buf_put (ring_buf_put buf (enc16 len)).1 data).1
    ((ring_buf_put buf (enc16 len)).2 + (ring_buf_put (ring_buf_put buf (enc16 len)).1 data).2) hinv2
  rw [s1, t1] at hack hinv3 ⊢
  rw [hack] at hinv3 ⊢
  refine ⟨rfl, ?_, ?_, ?_, ?_, ?_, ?_, hinv3⟩
  · dsimp only
    rw [t2, s2]
  · dsimp only
    rw [t6, s6]
  · dsimp only
    rw [t4, s4]
  · dsimp only
    rw [t4, s4]
  · unfold ring_buf_used_space
    dsimp only
    rw [t4, s4, t6, s6]
    push_cast
    ring
  · intro i hi
    show (ring_buf_put (ring_buf_put buf (enc16 len)).1 data).1.space
      (((buf.put.head - buf.put.base).toNat + i) % buf.size) = _
    by_cases hic : i < 2
    · have havoid : ∀ i2, i2 < len →
          ((buf.put.head - buf.put.base).toNat + i) % buf.size ≠
          ((buf.put.head - buf.put.base).toNat + 2 + i2) % buf.size := by
        intro i2 hi2
        have hfS : (ring_buf_free_space buf).toNat ≤ buf.size := by
          unfold ring_buf_free_space at *
          omega
        have hres := add_mod_ne buf.size (buf.put.head - buf.put.base).toNat
          (show i < buf.size by omega) (show 2 + i2 < buf.size by omega)
          (show i ≠ 2 + i2 by omega)
        rw [← Nat.add_assoc] at hres
        exact hres
      rw [t8 _ havoid, s7 i (by omega), list_getD_append _ _ _ _ (by show i < 2; omega)]
    · have ht := t7 (i - 2) (by omega)
      rw [show (buf.put.head - buf.put.base).toNat + 2 + (i - 2) =
        (buf.put.head - buf.put.base).toNat + i from by omega] at ht
      rw [ht, list_getD_append_right _ _ _ _ (by show (2:Nat) ≤ i; omega)]
      congr 1

/-- Claim C6: ring_buf_item_put fails with -EMSGSIZE exactly when the
two-byte length field plus the payload length exceeds the free space,
and then mutates nothing; otherwise it writes the length field followed
by the payload via put at consecutive physical offsets from the put
head, acknowledges both, and returns 0, committing exactly 2 + length
bytes. -/
theorem claim_C6 (buf : RingBuf) (data : List Nat) (len : Nat)
    (hinv : ring_buf_inv buf) (hlen : data.length = len) :
    ((ring_buf_item_put buf data len).2 = -EMSGSIZE ↔
      (ring_buf_free_space buf).toNat < 2 + len) ∧
    ((ring_buf_free_space buf).toNat < 2 + len →
      (ring_buf_item_put buf data len).1 = buf) ∧
    (2 + len ≤ (ring_buf_free_space buf).toNat →
      (ring_buf_item_put buf data len).2 = 0 ∧
      (ring_buf_item_put buf data len).1.put.tail =
        buf.put.tail + ((2 + len : Nat) : Int) ∧
      ring_buf_used_space (ring_buf_item_put buf data len).1 =
        ring_buf_used_space buf + ((2 + len : Nat) : Int) ∧
      (∀ i, i < 2 + len →
        (ring_buf_item_put buf data len).1.space
          (((buf.put.head - buf.put.base).toNat + i) % buf.size) =
          (enc16 len ++ data).getD i 0)) := by
  by_cases hfail : 2 + len > (ring_buf_free_space buf).toNat
  · simp only [ring_buf_item_put]
    rw [if_pos hfail]
    exact ⟨iff_of_true rfl (by omega), fun _ => rfl, fun hok => absurd hok (by omega)⟩
  · push_neg at hfail
    obtain ⟨e1, e2, e3, e4, e5, e6, e7, e8⟩ :=
      ring_buf_item_put_spec buf data len hinv hlen hfail
    refine ⟨?_, fun hx => absurd hx (by omega), fun _ => ⟨e1, e4, e6, e7⟩⟩
    rw [e1]
    exact iff_of_false (by decide) (by omega)

theorem claim_C6_witness :
    ring_buf_inv bufW ∧
    ((ring_buf_item_put bufW [5, 6, 7] 3).2 = -EMSGSIZE ∧
     (ring_buf_item_put bufW [5, 6, 7] 3).1 = bufW) ∧
    ((ring_buf_item_put bufW [5, 6] 2).2 = 0 ∧
     ring_buf_used_space (ring_buf_item_put bufW [5, 6] 2).1 = 4 ∧
     (ring_buf_item_put bufW [5, 6] 2).1.space 0 = 2 ∧
     (ring_buf_item_put bufW [5, 6] 2).1.space 2 = 5) := by
  have hres := claim_C6 bufW [5, 6, 7] 3 (by decide) (by decide)
  have hres2 := claim_C6 bufW [5, 6] 2 (by decide) (by decide)
  refine ⟨by decide, ⟨?_, ?_⟩, ?_, ?_, ?_, ?_⟩
  · exact hres.1.mpr (by decide)
  · exact hres.2.1 (by decide)
  · exact (hres2.2.2 (by decide)).1
  · rw [(hres2.2.2 (by decide)).2.2.1]; decide
  · have hx := (hres2.2.2 (by decide)).2.2.2 0 (by decide)
    rw [show (((bufW.put.head - bufW.put.base).toNat + 0) % bufW.size) = 0 from by decide] at hx
    rw [hx]; decide
  · have hx := (hres2.2.2 (by decide)).2.2.2 2 (by decide)
    rw [show (((bufW.put.head - bufW.put.base).toNat + 2) % bufW.size) = 2 from by decide] at hx
    rw [hx]; decide

theorem range_map_getD (l : List Nat) :
    (List.range l.length).map (fun i => l.getD i 0) = l := by
  induction l with
  | nil => rfl
  | cons x t ih =>
    rw [List.length_cons, List.range_succ_eq_map, List.map_cons, List.map_map]
    have hmap : List.map ((fun i => (x :: t).getD i 0) ∘ Nat.succ) (List.range t.length) =
        List.map (fun i => t.getD i 0) (List.range t.length) :=
      List.map_congr_left fun a _ => rfl
    rw [hmap, ih]
    rfl

set_option maxHeartbeats 2000000 in
/-- Claim C7: item round-trip.  On a well-formed, quiescent, empty
buffer large enough to hold one maximal item, a ring_buf_item_put of any
payload of length up to 65535 succeeds, and the following
ring_buf_item_get succeeds and returns the identical length and the
identical byte content. -/
theorem claim_C7 (buf : RingBuf) (data : List Nat) (len : Nat)
    (hinv : ring_buf_inv buf) (hq : ring_buf_quiet buf)
    (hempty : ring_buf_used_space buf = 0)
    (hlen : data.length = len) (hmax : len ≤ 65535) (hcap : 65537 ≤ buf.size) :
    (ring_buf_item_put buf data len).2 = 0 ∧
    (ring_buf_item_get (ring_buf_item_put buf data len).1).2.1 = 0 ∧
    (ring_buf_item_get (ring_buf_item_put buf data len).1).2.2.1 = len ∧
    (ring_buf_item_get (ring_buf_item_put buf data len).1).2.2.2 = data := by
  have hok : 2 + len ≤ (ring_buf_free_space buf).toNat := by
    obtain ⟨hS, h1, h2, h3, h4, h5, h6, h7, h8, h9, h10, h11⟩ := hinv
    obtain ⟨hqp, hqg⟩ := hq
    unfold ring_buf_free_space
    unfold ring_buf_used_space at hempty
    omega
  obtain ⟨e1, e2, e3, e4, e5, e6, e7, e8⟩ :=
    ring_buf_item_put_spec buf data len hinv hlen hok
  obtain ⟨u1, u2, u3, u4, u5, u6, u7⟩ := ring_buf_get_inv_spec (ring_buf_item_put buf data len).1 2 e8
  have hinv4 := ring_buf_get_inv (ring_buf_item_put buf data len).1 2 e8
  obtain ⟨hS, h1, h2, h3, h4, h5, h6, h7, h8, h9, h10, h11⟩ := hinv
  obtain ⟨hqp, hqg⟩ := hq
  -- the put offset and the get offset coincide on a quiescent empty buffer
  have hab : (buf.put.head - buf.put.base).toNat = (buf.get.head - buf.get.base).toNat := by
    have hd : (buf.size : Int) ∣ (buf.put.base - buf.get.base) :=
      Int.dvd_of_emod_eq_zero h11
    obtain ⟨k, hk⟩ := hd
    have hpt : buf.put.head = buf.get.head := by
      unfold ring_buf_used_space at hempty
      omega
    have hk0 : k = 0 := by
      rcases lt_trichotomy k 0 with hlt | heq | hgt
      · exfalso
        have hm : (buf.size : Int) * k ≤ buf.size * (-1) := by
          apply mul_le_mul_of_nonneg_left (by omega) (by positivity)
        omega
      · exact heq
      · exfalso
        have hm : (buf.size : Int) * 1 ≤ buf.size * k := by
          apply mul_le_mul_of_nonneg_left (by omega) (by positivity)
        omega
    rw [hk0, mul_zero] at hk
    omega
  have husedB : ring_buf_used_space (ring_buf_item_put buf data len).1 = ((2 + len : Nat) : Int) := by
    rw [e6, hempty]
    ring
  have hmin3 : min 2 (ring_buf_used_space (ring_buf_item_put buf data len).1).toNat = 2 := by
    rw [husedB, Int.toNat_natCast]
    omega
  simp only [e2, e3] at u1 u7
  rw [hmin3] at u1 u7
  -- the two length-field bytes read back
  have hby1 : (ring_buf_get (ring_buf_item_put buf data len).1 2).2 =
      [(ring_buf_item_put buf data len).1.space (((buf.get.head - buf.get.base).toNat + 0) % buf.size),
       (ring_buf_item_put buf data len).1.space (((buf.get.head - buf.get.base).toNat + 1) % buf.size)] := by
    rw [u1]
    rfl
  have hsp0 : (ring_buf_item_put buf data len).1.space (((buf.get.head - buf.get.base).toNat + 0) % buf.size) = len % 256 := by
    rw [← hab, e7 0 (by omega), list_getD_append _ _ _ _ (by simp [enc16])]
    rfl
  have hsp1 : (ring_buf_item_put buf data len).1.space (((buf.get.head - buf.get.base).toNat + 1) % buf.size) = len / 256 := by
    rw [← hab, e7 1 (by omega), list_getD_append _ _ _ _ (by simp [enc16])]
    rfl
  have hdec : dec16 ((ring_buf_get (ring_buf_item_put buf data len).1 2).2.getD 0 0) ((ring_buf_get (ring_buf_item_put buf data len).1 2).2.getD 1 0) = len := by
    rw [hby1]
    simp only [List.getD_cons_zero, List.getD_cons_succ]
    rw [hsp0, hsp1]
    unfold dec16
    omega
  -- state after reading the length field
  simp only [e3] at u5
  have hused4 : ring_buf_used_space (ring_buf_get (ring_buf_item_put buf data len).1 2).1 = (len : Int) := by
    unfold ring_buf_used_space
    rw [u4, u7, e4]
    unfold ring_buf_used_space at hempty
    push_cast
    omega
  have hgoff4 : ((ring_buf_get (ring_buf_item_put buf data len).1 2).1.get.head - (ring_buf_get (ring_buf_item_put buf data len).1 2).1.get.base).toNat = (buf.get.head - buf.get.base).toNat + 2 := by
    rw [u7, u5]
    push_cast
    omega
  obtain ⟨v1, v2, v3, v4, v5, v6, v7⟩ := ring_buf_get_inv_spec (ring_buf_get (ring_buf_item_put buf data len).1 2).1 len hinv4
  have hmin4 : min len (ring_buf_used_space (ring_buf_get (ring_buf_item_put buf data len).1 2).1).toNat = len := by
    rw [hused4, Int.toNat_natCast]
    omega
  rw [hmin4] at v1 v7
  rw [hgoff4] at v1
  simp only [u2, u3, e2] at v1
  -- the payload bytes read back
  have hby2 : (ring_buf_get (ring_buf_get (ring_buf_item_put buf data len).1 2).1 len).2 = data := by
    rw [v1]
    have hvals : ∀ j ∈ List.range len, (ring_buf_item_put buf data len).1.space (((buf.get.head - buf.get.base).toNat + 2 + j) % buf.size) =
        data.getD j 0 := by
      intro j hj
      rw [List.mem_range] at hj
      rw [Nat.add_assoc, ← hab, e7 (2 + j) (by omega),
        list_getD_append_right _ _ _ _ (by show (2:Nat) ≤ 2 + j; omega)]
      rw [show 2 + j - (enc16 len).length = j from by simp [enc16]]
    rw [List.map_congr_left hvals, ← hlen, range_map_getD]
  have hlen1 : (ring_buf_get (ring_buf_item_put buf data len).1 2).2.length = 2 := by
    rw [hby1]
    rfl
  have hlen2 : (ring_buf_get (ring_buf_get (ring_buf_item_put buf data len).1 2).1 len).2.length = len := by
    rw [hby2, hlen]
  -- acknowledging both reads succeeds
  have hc2 : (ring_buf_get (ring_buf_item_put buf data len).1 2).2.length + (ring_buf_get (ring_buf_get (ring_buf_item_put buf data len).1 2).1 len).2.length ≤
      ring_buf_zone_claim (ring_buf_get (ring_buf_get (ring_buf_item_put buf data len).1 2).1 len).1.get := by
    unfold ring_buf_zone_claim
    rw [hlen1, hlen2, v7, v6, u7, u6]
    simp only [e3]
    push_cast
    omega
  have hack2 := ring_buf_get_ack_succ (ring_buf_get (ring_buf_get (ring_buf_item_put buf data len).1 2).1 len).1
    ((ring_buf_get (ring_buf_item_put buf data len).1 2).2.length + (ring_buf_get (ring_buf_get (ring_buf_item_put buf data len).1 2).1 len).2.length) hc2
  simp only [ring_buf_item_get]
  have hne : ¬ (ring_buf_is_empty (ring_buf_item_put buf data len).1 = true) := by
    unfold ring_buf_is_empty
    rw [husedB]
    simp
    omega
  rw [if_neg hne, hdec, hack2]
  exact ⟨e1, rfl, rfl, hby2⟩

/-- A concrete buffer large enough for one maximal item (capacity
65537), in its reset state. -/
def bufBig : RingBuf := { space := fun _ => 0, size := 65537, put := ⟨0, 0, 0⟩, get := ⟨0, 0, 0⟩ }

theorem claim_C7_witness :
    ring_buf_inv bufBig ∧ ring_buf_quiet bufBig ∧
    (ring_buf_item_put bufBig [42] 1).2 = 0 ∧
    (ring_buf_item_get (ring_buf_item_put bufBig [42] 1).1).2.2.1 = 1 ∧
    (ring_buf_item_get (ring_buf_item_put bufBig [42] 1).1).2.2.2 = [42] := by
  have hres := claim_C7 bufBig [42] 1 (by decide) (by decide) (by decide) (by decide)
    (by decide) (by decide)
  exact ⟨by decide, by decide, hres.1, hres.2.2.1, hres.2.2.2⟩

/-- Claim C8 counterexample: ring_buf_put_circ can fail with -EMSGSIZE
even though the size does not exceed the buffer's total capacity: on a
4-byte buffer holding 3 committed bytes (not full, so no eviction is
attempted), putting 2 bytes fails although 2 is at most the capacity 4,
refuting the claim's assertion that failure is only possible when the
size exceeds the capacity. -/
theorem claim_C8_counterexample :
    (ring_buf_put_circ bufP3 [1, 2]).2 = -EMSGSIZE ∧
    (2 ≤ bufP3.size) := by decide

/-- Claim C8 (amended): on a well-formed quiescent state,
ring_buf_put_circ discards min(size, capacity) of the oldest bytes when
and only when the buffer is full; it then fails with -EMSGSIZE, without
any partial write (put zone untouched), exactly when the size still
exceeds the free space after that step — on a full buffer that means
size > capacity, but on a partially full buffer it fails for any size
exceeding the current free space; otherwise it commits exactly size
bytes and returns 0. -/
theorem claim_C8 (buf : RingBuf) (data : List Nat)
    (hinv : ring_buf_inv buf) (hq : ring_buf_quiet buf) :
    (ring_buf_is_full buf = true →
      (ring_buf_put_circ buf data).1.get.tail =
        buf.get.tail + ((min data.length buf.size : Nat) : Int) ∧
      ((ring_buf_put_circ buf data).2 = -EMSGSIZE ↔ buf.size < data.length) ∧
      (data.length ≤ buf.size →
        (ring_buf_put_circ buf data).2 = 0 ∧
        ring_buf_used_space (ring_buf_put_circ buf data).1 = (buf.size : Int))) ∧
    (ring_buf_is_full buf = false →
      (ring_buf_put_circ buf data).1.get = buf.get ∧
      ((ring_buf_put_circ buf data).2 = -EMSGSIZE ↔
        (ring_buf_free_space buf).toNat < data.length) ∧
      ((ring_buf_free_space buf).toNat < data.length →
        (ring_buf_put_circ buf data).1 = buf) ∧
      (data.length ≤ (ring_buf_free_space buf).toNat →
        (ring_buf_put_circ buf data).2 = 0 ∧
        ring_buf_used_space (ring_buf_put_circ buf data).1 =
          ring_buf_used_space buf + data.length)) ∧
    ((ring_buf_put_circ buf data).2 = -EMSGSIZE →
      (ring_buf_put_circ buf data).1.put.head = buf.put.head ∧
      (ring_buf_put_circ buf data).1.put.tail = buf.put.tail) := by
  obtain ⟨g1, g2, g3, g4, g5, g6, g7⟩ := ring_buf_get_inv_spec buf data.length hinv
  have hinvG := ring_buf_get_inv buf data.length hinv
  obtain ⟨hS, h1, h2, h3, h4, h5, h6, h7, h8, h9, h10, h11⟩ := hinv
  obtain ⟨hqp, hqg⟩ := hq
  have hglen : (ring_buf_get buf data.length).2.length =
      min data.length (ring_buf_used_space buf).toNat := by
    rw [g1, List.length_map, List.length_range]
  simp only [ring_buf_put_circ]
  cases hfull : ring_buf_is_full buf with
  | false =>
    have hfree0 : ¬ ring_buf_free_space buf = 0 := by
      unfold ring_buf_is_full at hfull
      simpa using hfull
    rw [if_neg Bool.false_ne_true]
    refine ⟨fun hx => absurd hx Bool.false_ne_true, ?_, ?_⟩
    · obtain ⟨s1, s2, s3, s4, s5, s6, s7, s8⟩ := ring_buf_put_inv_spec buf data
        ⟨hS, h1, h2, h3, h4, h5, h6, h7, h8, h9, h10, h11⟩
      intro _
      by_cases hfail : (ring_buf_free_space buf).toNat < data.length
      · rw [if_pos (by omega)]
        exact ⟨rfl, iff_of_true rfl hfail, fun _ => rfl, fun hx => absurd hx (by omega)⟩
      · push_neg at hfail
        rw [if_neg (by omega)]
        have hc : (ring_buf_put buf data).2 ≤
            ring_buf_zone_claim (ring_buf_put buf data).1.put := by
          unfold ring_buf_zone_claim
          rw [s4, s5, s1]
          omega
        have hack := ring_buf_put_ack_succ (ring_buf_put buf data).1
          (ring_buf_put buf data).2 hc
        rw [hack]
        have hmin : min data.length (ring_buf_free_space buf).toNat = data.length := by
          omega
        refine ⟨by dsimp only; rw [s6], iff_of_false (by dsimp only; decide) (by omega),
          fun hx => absurd hx (by omega), fun _ => ⟨rfl, ?_⟩⟩
        unfold ring_buf_used_space
        dsimp only
        rw [s4, s1, hmin, s6]
        push_cast
        ring
    · intro hres
      by_cases hfail : (ring_buf_free_space buf).toNat < data.length
      · rw [if_pos (by omega)] at hres ⊢
        exact ⟨rfl, rfl⟩
      · exfalso
        obtain ⟨s1, s2, s3, s4, s5, s6, s7, s8⟩ := ring_buf_put_inv_spec buf data
          ⟨hS, h1, h2, h3, h4, h5, h6, h7, h8, h9, h10, h11⟩
        push_neg at hfail
        rw [if_neg (by omega)] at hres
        have hc : (ring_buf_put buf data).2 ≤
            ring_buf_zone_claim (ring_buf_put buf data).1.put := by
          unfold ring_buf_zone_claim
          rw [s4, s5, s1]
          omega
        rw [ring_buf_put_ack_succ (ring_buf_put buf data).1 (ring_buf_put buf data).2 hc]
          at hres
        exact absurd hres (by dsimp only; decide)
  | true =>
    have hfree0 : ring_buf_free_space buf = 0 := by
      unfold ring_buf_is_full at hfull
      simpa using hfull
    have hused : ring_buf_used_space buf = (buf.size : Int) := by
      unfold ring_buf_used_space
      unfold ring_buf_free_space at hfree0
      omega
    have husedN : (ring_buf_used_space buf).toNat = buf.size := by
      rw [hused, Int.toNat_natCast]
    rw [husedN] at g1 g7
    rw [if_pos rfl]
    -- acknowledge the eviction
    have hcE : (ring_buf_get buf data.length).2.length ≤
        ring_buf_zone_claim (ring_buf_get buf data.length).1.get := by
      unfold ring_buf_zone_claim
      rw [hglen, husedN, g6, g7]
      push_cast
      omega
    have hackE := ring_buf_get_ack_succ (ring_buf_get buf data.length).1
      (ring_buf_get buf data.length).2.length hcE
    have hinvE := ring_buf_get_ack_inv (ring_buf_get buf data.length).1
      (ring_buf_get buf data.length).2.length hinvG
    rw [hglen, husedN] at hackE hinvE ⊢
    have hEgt : (ring_buf_get_ack (ring_buf_get buf data.length).1
        (min data.length buf.size)).1.get.tail =
        buf.get.tail + ((min data.length buf.size : Nat) : Int) := by
      rw [hackE]
      dsimp only
      rw [g6]
    have hEgh : (ring_buf_get_ack (ring_buf_get buf data.length).1
        (min data.length buf.size)).1.get.head =
        buf.get.tail + ((min data.length buf.size : Nat) : Int) := by
      rw [hackE]
      dsimp only
      rw [g6]
    have hEp : (ring_buf_get_ack (ring_buf_get buf data.length).1
        (min data.length buf.size)).1.put = buf.put := by
      rw [hackE]
      dsimp only
      rw [g4]
    have hEs : (ring_buf_get_ack (ring_buf_get buf data.length).1
        (min data.length buf.size)).1.size = buf.size := by
      rw [hackE]
      dsimp only
      rw [g2]
    have hfreeE : ring_buf_free_space
        (ring_buf_get_ack (ring_buf_get buf data.length).1
          (min data.length buf.size)).1 =
        ((min data.length buf.size : Nat) : Int) := by
      unfold ring_buf_free_space
      rw [hEs, hEp, hEgt]
      unfold ring_buf_free_space at hfree0
      push_cast
      omega
    have hfreeEN : (ring_buf_free_space
        (ring_buf_get_ack (ring_buf_get buf data.length).1
          (min data.length buf.size)).1).toNat = min data.length buf.size := by
      rw [hfreeE, Int.toNat_natCast]
    obtain ⟨s1, s2, s3, s4, s5, s6, s7, s8⟩ := ring_buf_put_inv_spec
      (ring_buf_get_ack (ring_buf_get buf data.length).1 (min data.length buf.size)).1
      data hinvE
    by_cases hbig : buf.size < data.length
    · rw [if_pos (by omega)]
      refine ⟨?_, ?_, ?_⟩
      · intro _
        exact ⟨hEgt, iff_of_true rfl hbig, fun hx => absurd hx (by omega)⟩
      · intro hx
        exact absurd hx (by decide)
      · intro _
        rw [hEp]
        exact ⟨rfl, rfl⟩
    · rw [if_neg (by omega)]
      have hmin2 : min data.length (ring_buf_free_space
          (ring_buf_get_ack (ring_buf_get buf data.length).1
            (min data.length buf.size)).1).toNat = data.length := by
        rw [hfreeEN]
        omega
      have hc2 : (ring_buf_put (ring_buf_get_ack (ring_buf_get buf data.length).1
          (min data.length buf.size)).1 data).2 ≤
          ring_buf_zone_claim (ring_buf_put (ring_buf_get_ack
            (ring_buf_get buf data.length).1 (min data.length buf.size)).1 data).1.put := by
        unfold ring_buf_zone_claim
        rw [s4, s5, s1, hEp]
        omega
      have hack2 := ring_buf_put_ack_succ
        (ring_buf_put (ring_buf_get_ack (ring_buf_get buf data.length).1
          (min data.length buf.size)).1 data).1
        (ring_buf_put (ring_buf_get_ack (ring_buf_get buf data.length).1
          (min data.length buf.size)).1 data).2 hc2
      rw [hack2]
      refine ⟨?_, ?_, ?_⟩
      · intro _
        refine ⟨by dsimp only; rw [s6, hEgt], iff_of_false (by dsimp only; decide)
          (by omega), fun _ => ⟨rfl, ?_⟩⟩
        unfold ring_buf_used_space
        dsimp only
        rw [s4, s1, hmin2, s6, hEgh, hEp]
        unfold ring_buf_used_space at hused
        push_cast
        omega
      · intro hx
        exact absurd hx (by decide)
      · intro hres
        exact absurd hres (by dsimp only; decide)

theorem claim_C8_witness :
    ring_buf_inv bufF4 ∧ ring_buf_quiet bufF4 ∧ ring_buf_is_full bufF4 = true ∧
    (ring_buf_put_circ bufF4 [5, 6]).2 = 0 ∧
    ring_buf_used_space (ring_buf_put_circ bufF4 [5, 6]).1 = 4 ∧
    (ring_buf_put_circ bufF4 [5, 6]).1.get.tail = 2 := by
  have hres := claim_C8 bufF4 [5, 6] (by decide) (by decide)
  have hfull : ring_buf_is_full bufF4 = true := by decide
  refine ⟨by decide, by decide, hfull, ?_, ?_, ?_⟩
  · exact ((hres.1 hfull).2.2 (by decide)).1
  · have hx := ((hres.1 hfull).2.2 (by decide)).2
    rw [hx]
    decide
  · have hx := (hres.1 hfull).1
    rw [hx]
    decide

/-- An operation of the conservation experiment: each raw put or get is
immediately followed by an acknowledgement of the amount it moved, as
the all-or-none wrappers and the item and circular layers do. -/
inductive RingBufOp where
  | putAcked (data : List Nat)
  | getAcked (size : Nat)
  | putAll (data : List Nat)
  | getAll (size : Nat)

/-- Execute one operation against a buffer. -/
def ring_buf_exec (buf : RingBuf) : RingBufOp → RingBuf
  | .putAcked data =>
    (ring_buf_put_ack (ring_buf_put buf data).1 (ring_buf_put buf data).2).1
  | .getAcked size =>
    (ring_buf_get_ack (ring_buf_get buf size).1 (ring_buf_get buf size).2.length).1
  | .putAll data => (ring_buf_put_all buf data).1
  | .getAll size => (ring_buf_get_all buf size).1

/-- Execute a sequence of operations left to right. -/
def ring_buf_exec_all (buf : RingBuf) (ops : List RingBufOp) : RingBuf :=
  ops.foldl ring_buf_exec buf

/-- Every acknowledged operation preserves well-formedness, quiescence,
and the capacity. -/
theorem ring_buf_exec_preserves (buf : RingBuf) (op : RingBufOp)
    (hinv : ring_buf_inv buf) (hq : ring_buf_quiet buf) :
    ring_buf_inv (ring_buf_exec buf op) ∧ ring_buf_quiet (ring_buf_exec buf op) ∧
    (ring_buf_exec buf op).size = buf.size := by
  cases op with
  | putAcked data =>
    obtain ⟨s1, s2, s3, s4, s5, s6, s7, s8⟩ := ring_buf_put_inv_spec buf data hinv
    have hinv1 := ring_buf_put_inv buf data hinv
    obtain ⟨hS, h1, h2, h3, h4, h5, h6, h7, h8, h9, h10, h11⟩ := hinv
    have hle : (ring_buf_put buf data).2 ≤
        ring_buf_zone_claim (ring_buf_put buf data).1.put := by
      unfold ring_buf_zone_claim
      rw [s4, s5, s1]
      omega
    have hinv2 := ring_buf_put_ack_inv (ring_buf_put buf data).1
      (ring_buf_put buf data).2 hinv1
    simp only [ring_buf_exec]
    rw [ring_buf_put_ack_succ _ _ hle] at hinv2 ⊢
    refine ⟨hinv2, ⟨rfl, ?_⟩, ?_⟩
    · show (ring_buf_put buf data).1.get.head = (ring_buf_put buf data).1.get.tail
      rw [s6]
      exact hq.2
    · show (ring_buf_put buf data).1.size = buf.size
      exact s2
  | getAcked size =>
    obtain ⟨g1, g2, g3, g4, g5, g6, g7⟩ := ring_buf_get_inv_spec buf size hinv
    have hinv1 := ring_buf_get_inv buf size hinv
    obtain ⟨hS, h1, h2, h3, h4, h5, h6, h7, h8, h9, h10, h11⟩ := hinv
    have hglen : (ring_buf_get buf size).2.length =
        min size (ring_buf_used_space buf).toNat := by
      rw [g1, List.length_map, List.length_range]
    have hle : (ring_buf_get buf size).2.length ≤
        ring_buf_zone_claim (ring_buf_get buf size).1.get := by
      unfold ring_buf_zone_claim
      rw [g6, g7, hglen]
      omega
    have hinv2 := ring_buf_get_ack_inv (ring_buf_get buf size).1
      (ring_buf_get buf size).2.length hinv1
    simp only [ring_buf_exec]
    rw [ring_buf_get_ack_succ _ _ hle] at hinv2 ⊢
    refine ⟨hinv2, ⟨?_, rfl⟩, ?_⟩
    · show (ring_buf_get buf size).1.put.head = (ring_buf_get buf size).1.put.tail
      rw [g4]
      exact hq.1
    · show (ring_buf_get buf size).1.size = buf.size
      exact g2
  | putAll data =>
    obtain ⟨s1, s2, s3, s4, s5, s6, s7, s8⟩ := ring_buf_put_inv_spec buf data hinv
    have hinv1 := ring_buf_put_inv buf data hinv
    obtain ⟨hS, h1, h2, h3, h4, h5, h6, h7, h8, h9, h10, h11⟩ := hinv
    simp only [ring_buf_exec, ring_buf_put_all]
    have hle : (if (if (ring_buf_put buf data).2 < data.length then -EMSGSIZE
        else (0 : Int)) < 0 then 0 else (ring_buf_put buf data).2) ≤
        ring_buf_zone_claim (ring_buf_put buf data).1.put := by
      by_cases hc : (if (ring_buf_put buf data).2 < data.length then -EMSGSIZE
          else (0 : Int)) < 0
      · rw [if_pos hc]
        exact Nat.zero_le _
      · rw [if_neg hc]
        unfold ring_buf_zone_claim
        rw [s4, s5, s1]
        omega
    have hinv2 := ring_buf_put_ack_inv (ring_buf_put buf data).1
      (if (if (ring_buf_put buf data).2 < data.length then -EMSGSIZE
        else (0 : Int)) < 0 then 0 else (ring_buf_put buf data).2) hinv1
    rw [ring_buf_put_ack_succ _ _ hle] at hinv2 ⊢
    refine ⟨hinv2, ⟨rfl, ?_⟩, ?_⟩
    · show (ring_buf_put buf data).1.get.head = (ring_buf_put buf data).1.get.tail
      rw [s6]
      exact hq.2
    · show (ring_buf_put buf data).1.size = buf.size
      exact s2
  | getAll size =>
    obtain ⟨g1, g2, g3, g4, g5, g6, g7⟩ := ring_buf_get_inv_spec buf size hinv
    have hinv1 := ring_buf_get_inv buf size hinv
    obtain ⟨hS, h1, h2, h3, h4, h5, h6, h7, h8, h9, h10, h11⟩ := hinv
    have hglen : (ring_buf_get buf size).2.length =
        min size (ring_buf_used_space buf).toNat := by
      rw [g1, List.length_map, List.length_range]
    simp only [ring_buf_exec, ring_buf_get_all]
    have hle : (if (if (ring_buf_get buf size).2.length < size then -EAGAIN
        else (0 : Int)) < 0 then 0 else (ring_buf_get buf size).2.length) ≤
        ring_buf_zone_claim (ring_buf_get buf size).1.get := by
      by_cases hc : (if (ring_buf_get buf size).2.length < size then -EAGAIN
          else (0 : Int)) < 0
      · rw [if_pos hc]
        exact Nat.zero_le _
      · rw [if_neg hc]
        unfold ring_buf_zone_claim
        rw [g6, g7, hglen]
        omega
    have hinv2 := ring_buf_get_ack_inv (ring_buf_get buf size).1
      (if (if (ring_buf_get buf size).2.length < size then -EAGAIN
        else (0 : Int)) < 0 then 0 else (ring_buf_get buf size).2.length) hinv1
    rw [ring_buf_get_ack_succ _ _ hle] at hinv2 ⊢
    refine ⟨hinv2, ⟨?_, rfl⟩, ?_⟩
    · show (ring_buf_get buf size).1.put.head = (ring_buf_get buf size).1.put.tail
      rw [g4]
      exact hq.1
    · show (ring_buf_get buf size).1.size = buf.size
      exact g2

/-- Sequences of acknowledged operations preserve well-formedness,
quiescence, and the capacity. -/
theorem ring_buf_exec_all_inv (ops : List RingBufOp) :
    ∀ buf, ring_buf_inv buf → ring_buf_quiet buf →
    ring_buf_inv (ring_buf_exec_all buf ops) ∧
    ring_buf_quiet (ring_buf_exec_all buf ops) ∧
    (ring_buf_exec_all buf ops).size = buf.size := by
  induction ops with
  | nil => exact fun buf h hq => ⟨h, hq, rfl⟩
  | cons op rest ih =>
    intro buf h hq
    obtain ⟨h1, h2, h3⟩ := ring_buf_exec_preserves buf op h hq
    obtain ⟨i1, i2, i3⟩ := ih (ring_buf_exec buf op) h1 h2
    exact ⟨i1, i2, by rw [ring_buf_exec_all] at i3 ⊢; rw [List.foldl_cons, i3, h3]⟩

/-- Claim C4 counterexample: a raw, unacknowledged ring_buf_put breaks
used + free = capacity.  Starting from a reset 4-byte buffer, after a
single ring_buf_put of one byte the used space is 0 and the free space
is 3, so the sum is 3, not the capacity 4: the conservation equation
fails at this observation point of a put/get sequence. -/
theorem claim_C4_counterexample :
    (ring_buf_used_space (ring_buf_put (ring_buf_reset bufW 0) [7]).1).toNat +
      (ring_buf_free_space (ring_buf_put (ring_buf_reset bufW 0) [7]).1).toNat ≠
      bufW.size := by decide

/-- Claim C4 (amended): conservation holds for sequences of
acknowledged put and get operations (each raw put/get immediately
followed by an acknowledgement of the amount moved, as in the
all-or-none wrappers): starting from a reset buffer of positive
capacity, after any such sequence used space plus free space equals the
capacity.  (With an outstanding claim the identity instead reads
used + free + outstanding claims = capacity.) -/
theorem claim_C4 (buf : RingBuf) (base : Int) (ops : List RingBufOp)
    (hS : 0 < buf.size) :
    (ring_buf_used_space (ring_buf_exec_all (ring_buf_reset buf base) ops)).toNat +
      (ring_buf_free_space (ring_buf_exec_all (ring_buf_reset buf base) ops)).toNat =
      buf.size := by
  have h0 := ring_buf_reset_inv buf base hS
  have hq0 : ring_buf_quiet (ring_buf_reset buf base) := ⟨rfl, rfl⟩
  obtain ⟨i1, i2, i3⟩ := ring_buf_exec_all_inv ops (ring_buf_reset buf base) h0 hq0
  obtain ⟨hS2, j1, j2, j3, j4, j5, j6, j7, j8, j9, j10, j11⟩ := i1
  obtain ⟨q1, q2⟩ := i2
  have hsz : (ring_buf_exec_all (ring_buf_reset buf base) ops).size = buf.size := i3
  unfold ring_buf_used_space ring_buf_free_space
  omega

theorem claim_C4_witness :
    0 < bufW.size ∧
    (ring_buf_used_space (ring_buf_exec_all (ring_buf_reset bufW 0)
        [RingBufOp.putAcked [1, 2], RingBufOp.getAcked 1])).toNat +
      (ring_buf_free_space (ring_buf_exec_all (ring_buf_reset bufW 0)
        [RingBufOp.putAcked [1, 2], RingBufOp.getAcked 1])).toNat = bufW.size :=
  ⟨by decide, claim_C4 bufW 0 [RingBufOp.putAcked [1, 2], RingBufOp.getAcked 1] (by decide)⟩

/-- Fields of a get-claim result: only the get head moves. -/
theorem ring_buf_get_claim_fields (buf : RingBuf) (n : Nat) :
    (ring_buf_get_claim buf n).1.get.tail = buf.get.tail ∧
    (ring_buf_get_claim buf n).1.get.base = buf.get.base ∧
    (ring_buf_get_claim buf n).1.put = buf.put ∧
    (ring_buf_get_claim buf n).1.size = buf.size ∧
    (ring_buf_get_claim buf n).1.space = buf.space ∧
    (ring_buf_get_claim buf n).1.get.head =
      buf.get.head + (((ring_buf_get_claim buf n).2.2 : Nat) : Int) :=
  ⟨rfl, rfl, rfl, rfl, rfl, rfl⟩

/-- The grant of a get-claim never exceeds the used space (on states
where the used space is the non-negative span it represents). -/
theorem ring_buf_get_claim_grant_le (buf : RingBuf) (n : Nat)
    (hinv : ring_buf_inv buf) :
    (ring_buf_get_claim buf n).2.2 ≤ (ring_buf_used_space buf).toNat := by
  obtain ⟨hS, h1, h2, h3, h4, h5, h6, h7, h8, h9, h10, h11⟩ := hinv
  have hg : buf.get.head = buf.get.base +
      (((buf.get.head - buf.get.base).toNat : Nat) : Int) := by omega
  rw [ring_buf_get_claim_eq buf n (buf.get.head - buf.get.base).toNat hg]
  exact Nat.min_le_right _ _

/-- ring_buf_get_claim preserves the well-formedness invariant. -/
theorem ring_buf_get_claim_inv (buf : RingBuf) (n : Nat)
    (hinv : ring_buf_inv buf) : ring_buf_inv (ring_buf_get_claim buf n).1 := by
  have hle := ring_buf_get_claim_grant_le buf n hinv
  obtain ⟨hS, h1, h2, h3, h4, h5, h6, h7, h8, h9, h10, h11⟩ := hinv
  have hg : buf.get.head = buf.get.base +
      (((buf.get.head - buf.get.base).toNat : Nat) : Int) := by omega
  rw [ring_buf_get_claim_eq buf n (buf.get.head - buf.get.base).toNat hg] at hle ⊢
  have hw3 : wrapOff buf.size (buf.get.head - buf.get.base).toNat < buf.size := by
    unfold wrapOff; split <;> omega
  unfold ring_buf_inv
  dsimp only
  unfold ring_buf_used_space at hle ⊢
  refine ⟨hS, by omega, by omega, by omega, by omega, by omega, by omega,
    by omega, by omega, by omega, by omega, h11⟩

/-- One get-claim step, as iterated by the yield loop. -/
def claimStep (size : Nat) (buf : RingBuf) : RingBuf :=
  (ring_buf_get_claim buf size).1

/-- The buffer state after k get-claims of the given size. -/
def claimStates (buf : RingBuf) (size k : Nat) : RingBuf :=
  (claimStep size)^[k] buf

/-- The k-th get-claim's granted byte count. -/
def claimGrantAt (buf : RingBuf) (size k : Nat) : Nat :=
  (ring_buf_get_claim (claimStates buf size k) size).2.2

/-- The span of bytes the k-th get-claim hands to the callback. -/
def claimSpanAt (buf : RingBuf) (size k : Nat) : List Nat :=
  (List.range size).map fun i =>
    (claimStates buf size k).space
      ((ring_buf_get_claim (claimStates buf size k) size).2.1 + i)

theorem claimStates_zero (buf : RingBuf) (size : Nat) :
    claimStates buf size 0 = buf := rfl

theorem claimStates_shift (buf : RingBuf) (size j : Nat) :
    claimStates buf size (j + 1) =
      claimStates (ring_buf_get_claim buf size).1 size j := by
  unfold claimStates claimStep
  exact Function.iterate_succ_apply _ j buf

theorem claimGrantAt_zero (buf : RingBuf) (size : Nat) :
    claimGrantAt buf size 0 = (ring_buf_get_claim buf size).2.2 := rfl

theorem claimSpanAt_zero (buf : RingBuf) (size : Nat) :
    claimSpanAt buf size 0 =
      (List.range size).map (fun i => buf.space ((ring_buf_get_claim buf size).2.1 + i)) := rfl

theorem claimGrantAt_shift (buf : RingBuf) (size j : Nat) :
    claimGrantAt buf size (j + 1) =
      claimGrantAt (ring_buf_get_claim buf size).1 size j := by
  unfold claimGrantAt
  rw [claimStates_shift]

theorem claimSpanAt_shift (buf : RingBuf) (size j : Nat) :
    claimSpanAt buf size (j + 1) =
      claimSpanAt (ring_buf_get_claim buf size).1 size j := by
  unfold claimSpanAt
  rw [claimStates_shift]

/-- One unfolding step of the fuel-indexed yield loop. -/
theorem yield_step (size : Nat) (cb : List Nat → Int → Int) (buf : RingBuf)
    (index : Int) (fuel : Nat) :
    ring_buf_get_claim_yield size cb buf index (fuel + 1) =
      (if (ring_buf_get_claim buf size).2.2 = size then
        (if cb ((List.range size).map fun i =>
              buf.space ((ring_buf_get_claim buf size).2.1 + i)) index = -EAGAIN then
          ring_buf_get_claim_yield size cb (ring_buf_get_claim buf size).1 (index + 1) fuel
        else some ((ring_buf_get_claim buf size).1,
          cb ((List.range size).map fun i =>
            buf.space ((ring_buf_get_claim buf size).2.1 + i)) index))
      else some ((ring_buf_get_claim buf size).1, index)) := rfl

/-- Master characterization of the yield loop at fuel used/size + 1:
it always terminates within the fuel, never moves the get tail, and
either exhausts (returning the running index plus the span count, with
the failing claim's grant short of a full span) or stops early at the
first non-sentinel callback value, which it returns, having advanced the
get head by one span per claim taken. -/
theorem yield_fuel_spec (size : Nat) (cb : List Nat → Int → Int) (hsz : 0 < size) :
    ∀ (u : Nat) (buf : RingBuf) (index : Int),
      ring_buf_inv buf → (ring_buf_used_space buf).toNat = u →
      ∃ buf' r,
        ring_buf_get_claim_yield size cb buf index (u / size + 1) = some (buf', r) ∧
        buf'.get.tail = buf.get.tail ∧
        ((∃ n, claimGrantAt buf size n ≠ size ∧
            (∀ j, j < n → claimGrantAt buf size j = size ∧
              cb (claimSpanAt buf size j) (index + (j : Int)) = -EAGAIN) ∧
            r = index + (n : Int)) ∨
          (∃ k, claimGrantAt buf size k = size ∧
            cb (claimSpanAt buf size k) (index + (k : Int)) ≠ -EAGAIN ∧
            (∀ j, j < k → claimGrantAt buf size j = size ∧
              cb (claimSpanAt buf size j) (index + (j : Int)) = -EAGAIN) ∧
            r = cb (claimSpanAt buf size k) (index + (k : Int)) ∧
            buf'.get.head = buf.get.head + ((size * (k + 1) : Nat) : Int))) := by
  intro u
  induction u using Nat.strong_induction_on with
  | _ u ih =>
    intro buf index hinv hu
    have hfields := ring_buf_get_claim_fields buf size
    obtain ⟨hft, hfb, hfp, hfs, hfsp, hfh⟩ := hfields
    by_cases hgr : (ring_buf_get_claim buf size).2.2 = size
    · by_cases hcb : cb ((List.range size).map fun i =>
          buf.space ((ring_buf_get_claim buf size).2.1 + i)) index = -EAGAIN
      · -- continue: recurse on the claimed state with one less full span
        have hle := ring_buf_get_claim_grant_le buf size hinv
        have hsu : size ≤ u := by omega
        have hinv1 := ring_buf_get_claim_inv buf size hinv
        have h9 : buf.get.head ≤ buf.put.tail := hinv.2.2.2.2.2.2.2.2.2.1
        have hu1 : (ring_buf_used_space (ring_buf_get_claim buf size).1).toNat = u - size := by
          unfold ring_buf_used_space at hu ⊢
          rw [hfp, hfh, hgr]
          omega
        have hdec : u - size < u := by omega
        obtain ⟨buf', r, hrun, htail, hdisj⟩ :=
          ih (u - size) hdec (ring_buf_get_claim buf size).1 (index + 1) hinv1 hu1
        have hdiv : u / size = (u - size) / size + 1 := by
          have he : (u - size) + size = u := Nat.sub_add_cancel hsu
          calc u / size = ((u - size) + size) / size := by rw [he]
            _ = (u - size) / size + 1 := Nat.add_div_right _ hsz
        refine ⟨buf', r, ?_, ?_, ?_⟩
        · rw [yield_step, if_pos hgr, if_pos hcb, hdiv]
          exact hrun
        · rw [htail, hft]
        · rcases hdisj with ⟨n, hgn, hall, hr⟩ | ⟨k, hgk, hcbk, hall, hr, hhead⟩
          · left
            refine ⟨n + 1, ?_, ?_, ?_⟩
            · rw [claimGrantAt_shift]; exact hgn
            · intro j hj
              match j with
              | 0 =>
                refine ⟨claimGrantAt_zero buf size ▸ hgr, ?_⟩
                rw [claimSpanAt_zero]
                simpa using hcb
              | j' + 1 =>
                have hj' : j' < n := by omega
                obtain ⟨hg', hc'⟩ := hall j' hj'
                refine ⟨by rw [claimGrantAt_shift]; exact hg', ?_⟩
                rw [claimSpanAt_shift]
                have hix : index + ((j' + 1 : Nat) : Int) = (index + 1) + (j' : Int) := by
                  push_cast; ring
                rw [hix]
                exact hc'
            · rw [hr]; push_cast; ring
          · right
            refine ⟨k + 1, ?_, ?_, ?_, ?_, ?_⟩
            · rw [claimGrantAt_shift]; exact hgk
            · rw [claimSpanAt_shift]
              have hix : index + ((k + 1 : Nat) : Int) = (index + 1) + (k : Int) := by
                push_cast; ring
              rw [hix]
              exact hcbk
            · intro j hj
              match j with
              | 0 =>
                refine ⟨claimGrantAt_zero buf size ▸ hgr, ?_⟩
                rw [claimSpanAt_zero]
                simpa using hcb
              | j' + 1 =>
                have hj' : j' < k := by omega
                obtain ⟨hg', hc'⟩ := hall j' hj'
                refine ⟨by rw [claimGrantAt_shift]; exact hg', ?_⟩
                rw [claimSpanAt_shift]
                have hix : index + ((j' + 1 : Nat) : Int) = (index + 1) + (j' : Int) := by
                  push_cast; ring
                rw [hix]
                exact hc'
            · rw [hr, claimSpanAt_shift]
              have hix : index + ((k + 1 : Nat) : Int) = (index + 1) + (k : Int) := by
                push_cast; ring
              rw [hix]
            · rw [hhead, hfh, hgr]
              push_cast; ring
      · -- early stop at the very first span
        refine ⟨(ring_buf_get_claim buf size).1,
          cb ((List.range size).map fun i =>
            buf.space ((ring_buf_get_claim buf size).2.1 + i)) index, ?_, hft, ?_⟩
        · rw [yield_step, if_pos hgr, if_neg hcb]
        · right
          refine ⟨0, claimGrantAt_zero buf size ▸ hgr, ?_, ?_, ?_, ?_⟩
          · rw [claimSpanAt_zero]
            simpa using hcb
          · intro j hj; exact absurd hj (Nat.not_lt_zero j)
          · rw [claimSpanAt_zero]
            simp
          · rw [hfh, hgr]
            push_cast; ring
    · -- exhaustion: the first claim already falls short of a full span
      refine ⟨(ring_buf_get_claim buf size).1, index, ?_, hft, ?_⟩
      · rw [yield_step, if_neg hgr]
      · left
        refine ⟨0, claimGrantAt_zero buf size ▸ hgr, ?_, ?_⟩
        · intro j hj; exact absurd hj (Nat.not_lt_zero j)
        · simp

theorem ring_buf_clamp_zero (limit : Nat) : ring_buf_clamp 0 limit = 0 := by
  unfold ring_buf_clamp
  rw [if_neg (by omega)]

/-- A get-claim of zero bytes always grants zero bytes. -/
theorem ring_buf_get_claim_grant_zero (buf : RingBuf) :
    (ring_buf_get_claim buf 0).2.2 = 0 := by
  unfold ring_buf_get_claim
  dsimp only
  rw [ring_buf_clamp_zero, ring_buf_clamp_zero]

/-- Claim C9: on a well-formed buffer, ring_buf_get_claim_yield iterates
only while a full size-byte span is granted by get-claim, invoking the
callback with each span and a zero-based index; a callback value other
than the -EAGAIN continue sentinel is returned immediately with no
further spans claimed (the get head having advanced one span per claim
taken), while exhaustion returns the count of spans yielded; the get
tail is never moved, so nothing is acknowledged. -/
theorem claim_C9 (buf : RingBuf) (size : Nat) (cb : List Nat → Int → Int)
    (hinv : ring_buf_inv buf) (hsz : 0 < size) :
    ∃ buf' r,
      ring_buf_get_claim_yield size cb buf 0
          ((ring_buf_used_space buf).toNat / size + 1) = some (buf', r) ∧
      buf'.get.tail = buf.get.tail ∧
      ((∃ n, claimGrantAt buf size n ≠ size ∧
          (∀ j, j < n → claimGrantAt buf size j = size ∧
            cb (claimSpanAt buf size j) (j : Int) = -EAGAIN) ∧
          r = (n : Int)) ∨
        (∃ k, claimGrantAt buf size k = size ∧
          cb (claimSpanAt buf size k) (k : Int) ≠ -EAGAIN ∧
          (∀ j, j < k → claimGrantAt buf size j = size ∧
            cb (claimSpanAt buf size j) (j : Int) = -EAGAIN) ∧
          r = cb (claimSpanAt buf size k) (k : Int) ∧
          buf'.get.head = buf.get.head + ((size * (k + 1) : Nat) : Int))) := by
  obtain ⟨buf', r, hrun, htail, hdisj⟩ :=
    yield_fuel_spec size cb hsz (ring_buf_used_space buf).toNat buf 0 hinv rfl
  refine ⟨buf', r, hrun, htail, ?_⟩
  simpa only [zero_add] using hdisj

theorem claim_C9_witness :
    ring_buf_inv bufF4 ∧ 0 < 2 ∧
    (∃ buf' r,
      ring_buf_get_claim_yield 2 (fun _ i => if i = 0 then -EAGAIN else 7) bufF4 0
          ((ring_buf_used_space bufF4).toNat / 2 + 1) = some (buf', r) ∧
      buf'.get.tail = bufF4.get.tail ∧
      ((∃ n, claimGrantAt bufF4 2 n ≠ 2 ∧
          (∀ j, j < n → claimGrantAt bufF4 2 j = 2 ∧
            (fun _ i => if i = 0 then -EAGAIN else 7)
              (claimSpanAt bufF4 2 j) (j : Int) = -EAGAIN) ∧
          r = (n : Int)) ∨
        (∃ k, claimGrantAt bufF4 2 k = 2 ∧
          (fun _ i => if i = 0 then -EAGAIN else 7)
            (claimSpanAt bufF4 2 k) (k : Int) ≠ -EAGAIN ∧
          (∀ j, j < k → claimGrantAt bufF4 2 j = 2 ∧
            (fun _ i => if i = 0 then -EAGAIN else 7)
              (claimSpanAt bufF4 2 j) (j : Int) = -EAGAIN) ∧
          r = (fun _ i => if i = 0 then -EAGAIN else 7)
            (claimSpanAt bufF4 2 k) (k : Int) ∧
          buf'.get.head = bufF4.get.head + ((2 * (k + 1) : Nat) : Int)))) :=
  ⟨by decide, by decide,
    claim_C9 bufF4 2 (fun _ i => if i = 0 then -EAGAIN else 7) (by decide) (by decide)⟩

/-- Claim C10: the yield loop over a well-formed buffer terminates
within used_space / size + 1 claim iterations for any chunk size of at
least one byte and any callback (the model's fuel bound suffices, i.e.
the C while loop exits); the size ≥ 1 hypothesis is required: with a
zero chunk size every claim grants exactly the requested zero bytes, so
a callback that always continues makes the loop run forever (the model
returns none at every fuel). -/
theorem claim_C10 :
    (∀ (buf : RingBuf) (size : Nat) (cb : List Nat → Int → Int) (index : Int),
        ring_buf_inv buf → 0 < size →
        ∃ out, ring_buf_get_claim_yield size cb buf index
          ((ring_buf_used_space buf).toNat / size + 1) = some out) ∧
    (∀ (buf : RingBuf) (index : Int) (fuel : Nat),
        ring_buf_get_claim_yield 0 (fun _ _ => -EAGAIN) buf index fuel = none) := by
  constructor
  · intro buf size cb index hinv hsz
    obtain ⟨buf', r, hrun, -, -⟩ :=
      yield_fuel_spec size cb hsz (ring_buf_used_space buf).toNat buf index hinv rfl
    exact ⟨(buf', r), hrun⟩
  · intro buf index fuel
    induction fuel generalizing buf index with
    | zero => rfl
    | succ fuel ih =>
      rw [yield_step]
      have hgr : (ring_buf_get_claim buf 0).2.2 = 0 := ring_buf_get_claim_grant_zero buf
      have hc : (fun (_ : List Nat) (_ : Int) => -EAGAIN)
          ((List.range 0).map fun i => buf.space ((ring_buf_get_claim buf 0).2.1 + i))
          index = -EAGAIN := rfl
      rw [if_pos hgr, if_pos hc]
      exact ih _ _

theorem claim_C10_witness :
    (ring_buf_inv bufF4 ∧ 0 < 2 ∧
      ∃ out, ring_buf_get_claim_yield 2 (fun _ _ => (5 : Int)) bufF4 0
        ((ring_buf_used_space bufF4).toNat / 2 + 1) = some out) ∧
    ring_buf_get_claim_yield 0 (fun _ _ => -EAGAIN) bufW 0 7 = none :=
  ⟨⟨by decide, by decide,
    claim_C10.1 bufF4 2 (fun _ _ => (5 : Int)) 0 (by decide) (by decide)⟩,
   claim_C10.2 bufW 0 7⟩
